import Mathlib

/-!
# Verification of the Magnify Cash loans dashboard core

Shallow embedding of the loan-dashboard's two algorithmic cores:

* the metrics engine (`src/src/utils/loanCalculations.ts` and the
  `getExpiredLoans` revision in `src/unnamed/part_010`), and
* the CSV ingestion pipeline (`src/src/utils/csvParser.ts`), including the
  header resolver, row normalizer, progress reporting and batched upserts.

Modelling conventions:

* JavaScript numbers that hold monetary amounts are modelled as `Rat`
  (the source compares exact decimal constants such as `1.025`).
* Dates are modelled at day granularity: `new Date(loan.loan_due_date)` is
  abstracted to an `Option Int` field (`none` = unparseable date / `NaN`),
  counted in days; `today` (the source's `new Date()` truncated with
  `setHours(0,0,0,0)`) is an explicit `Int` parameter.  With both endpoints
  at midnight of the same reference frame the source's
  `Math.ceil(Math.abs(due - today) / 86400000)` equals `|due - today|` in
  days, which is how `daysUntilDue` is defined below.
* `null`/`undefined`-able fields are `Option`s.
-/

namespace LoanDashboard

/-- The metrics-engine view of one loan record (`LoanData` in
`src/src/utils/types.ts`).  `loan_due_date` holds the *parsed* due date at
day granularity (`none` when `new Date(...)` would yield `NaN`);
`default_loan_date` keeps the raw string-or-null shape because the source
only tests it for truthiness. -/
structure LoanData where
  user_wallet : String
  loan_amount : Rat
  loan_repaid_amount : Option Rat
  loan_term : Rat
  loan_due_date : Option Int
  default_loan_date : Option String
  is_defaulted : Bool
  version : String
  deriving DecidableEq, Repr, Inhabited

/-- The `loanCalculations.ts:38` — `default_loan_date !== null && !== "" && !== undefined`;
the same truthiness test as `if (loan.default_loan_date)` used by the filters. -/
def hasDefaultDate (l : LoanData) : Bool :=
  match l.default_loan_date with
  | some s => s ≠ ""
  | none => false

/-- The `loanCalculations.ts:33` — `!isNaN(dueDate.getTime()) && dueDate > today`. -/
def isDueDateInFuture (today : Int) (l : LoanData) : Bool :=
  match l.loan_due_date with
  | some d => today < d
  | none => false

/-- The `loanCalculations.ts:34` — `loan_repaid_amount === undefined || === null`. -/
def isMissingRepaidAmount (l : LoanData) : Bool :=
  l.loan_repaid_amount.isNone

/-- The `loan.loan_repaid_amount < x` (false when the amount is missing, as in JS
where `null < x` is only relevant after the missing-check in the source). -/
def repaidLt (l : LoanData) (x : Rat) : Bool :=
  match l.loan_repaid_amount with
  | some r => r < x
  | none => false

/-- The `x <= loan.loan_repaid_amount` (false when missing). -/
def repaidGe (l : LoanData) (x : Rat) : Bool :=
  match l.loan_repaid_amount with
  | some r => x ≤ r
  | none => false

/-- One denomination tier's counters (`LoanMetrics.oneDollarLoans` /
`tenDollarLoans` in `types.ts`). -/
structure TierMetrics where
  defaulted : Nat := 0
  repaid : Nat := 0
  inProgress : Nat := 0
  total : Nat := 0
  deriving DecidableEq, Repr

/-- The `LoanMetrics` from `types.ts`. -/
structure LoanMetrics where
  totalLoans : Nat := 0
  totalDefaulted : Nat := 0
  totalInProgress : Nat := 0
  oneDollarLoans : TierMetrics := {}
  tenDollarLoans : TierMetrics := {}
  deriving DecidableEq, Repr

/-- The tier-bucket branch of `calculateLoanMetrics`
(`loanCalculations.ts:50-74`): bump `total`, then the first matching one of
`defaulted` / `repaid` / `inProgress` (or none of them). -/
def tierStep (defaultedFlag repaidOk inProgressOk : Bool) (t : TierMetrics) :
    TierMetrics :=
  let t := { t with total := t.total + 1 }
  if defaultedFlag then { t with defaulted := t.defaulted + 1 }
  else if repaidOk then { t with repaid := t.repaid + 1 }
  else if inProgressOk then { t with inProgress := t.inProgress + 1 }
  else t

/-- The body of the `loans.forEach` in `calculateLoanMetrics`
(`loanCalculations.ts:30-75`). -/
def metricsStep (today : Int) (m : LoanMetrics) (loan : LoanData) : LoanMetrics :=
  let dueFuture := isDueDateInFuture today loan
  let missing := isMissingRepaidAmount loan
  let defaulted := loan.is_defaulted || hasDefaultDate loan
  let m := if defaulted then { m with totalDefaulted := m.totalDefaulted + 1 } else m
  let m :=
    if !loan.is_defaulted && !hasDefaultDate loan && dueFuture &&
        (missing || repaidLt loan loan.loan_amount) then
      { m with totalInProgress := m.totalInProgress + 1 }
    else m
  let m :=
    if |loan.loan_amount - 1| < (1 : Rat)/100 then
      let one := tierStep defaulted (!missing && repaidGe loan (1.025 : Rat))
        ((missing || repaidLt loan (1.025 : Rat)) && dueFuture) m.oneDollarLoans
      { m with oneDollarLoans := one }
    else m
  if |loan.loan_amount - 10| < (1 : Rat)/100 then
    let ten := tierStep defaulted (!missing && repaidGe loan (10.15 : Rat))
      ((missing || repaidLt loan (10.15 : Rat)) && dueFuture) m.tenDollarLoans
    { m with tenDollarLoans := ten }
  else m

/-- The `calculateLoanMetrics` (`src/src/utils/loanCalculations.ts:5-78`):
`totalLoans` is set to `loans.length` up front, the remaining counters are
accumulated by the `forEach`. -/
def calculateLoanMetrics (today : Int) (loans : List LoanData) : LoanMetrics :=
  loans.foldl (metricsStep today) { totalLoans := loans.length }

/-- The `DueDateGroup` from `types.ts`. -/
structure DueDateGroup where
  label : String
  days : Nat
  count : Nat
  loans : List LoanData
  deriving DecidableEq, Repr, Inhabited

/-- The six groups initialised in `groupLoansByDueDate`
(`loanCalculations.ts:114-121`). -/
def initialDueGroups : List DueDateGroup :=
  [ ⟨"Due in 1 day", 1, 0, []⟩
  , ⟨"Due in 5 days", 5, 0, []⟩
  , ⟨"Due in 7 days", 7, 0, []⟩
  , ⟨"Due in 10 days", 10, 0, []⟩
  , ⟨"Due in 14 days", 14, 0, []⟩
  , ⟨"Due in 30 days", 30, 0, []⟩ ]

/-- The `activeLoans` filter of `groupLoansByDueDate`
(`loanCalculations.ts:124-132`): not defaulted, no (truthy) default date,
valid due date with `dueDate >= today`, and repaid amount missing or below
`loan_amount`. -/
def activeFilter (today : Int) (l : LoanData) : Bool :=
  !(l.is_defaulted || hasDefaultDate l) &&
    (match l.loan_due_date with
     | some d => today ≤ d
     | none => false) &&
    (isMissingRepaidAmount l || repaidLt l l.loan_amount)

/-- The `loanCalculations.ts:141-142` — `Math.ceil(Math.abs(due - today)/86400000)`;
at day granularity (both endpoints at midnight) this is `|due - today|` in days.
Loans reaching this in `groupLoansByDueDate` always have a valid due date, so
the `none` branch is arbitrary. -/
def daysUntilDue (today : Int) (l : LoanData) : Nat :=
  match l.loan_due_date with
  | some d => (d - today).natAbs
  | none => 0

/-- Sort key used by the `group.loans.sort` comparator
(`loanCalculations.ts:155-157`): the parsed due-date timestamp.  Every loan
sorted by the source has a valid date, so the `none` default is arbitrary. -/
def dueKey (l : LoanData) : Int :=
  l.loan_due_date.getD 0

/-- Ordered insertion for the model of the JS comparator sort. -/
def insertByDue (x : LoanData) : List LoanData → List LoanData
  | [] => [x]
  | y :: ys => if dueKey x ≤ dueKey y then x :: y :: ys else y :: insertByDue x ys

/-- Model of `loans.sort((a, b) => dueTime a - dueTime b)`: an insertion sort
producing a permutation that is ascending in `dueKey`. -/
def sortByDue : List LoanData → List LoanData
  | [] => []
  | x :: xs => insertByDue x (sortByDue xs)

/-- The per-loan pass of `groupLoansByDueDate` (`loanCalculations.ts:134-151`):
append the loan to every group whose `days` threshold is at least the loan's
days-until-due. -/
def addToGroups (today : Int) (gs : List DueDateGroup) (l : LoanData) :
    List DueDateGroup :=
  match l.loan_due_date with
  | none => gs  -- `if (isNaN(dueDate.getTime())) return;`
  | some _ =>
      gs.map fun g =>
        if daysUntilDue today l ≤ g.days then
          { g with count := g.count + 1, loans := g.loans ++ [l] }
        else g

/-- The `groupLoansByDueDate` (`src/src/utils/loanCalculations.ts:109-161`). -/
def groupLoansByDueDate (today : Int) (loans : List LoanData) : List DueDateGroup :=
  let activeLoans := loans.filter (activeFilter today)
  let filled := activeLoans.foldl (addToGroups today) initialDueGroups
  filled.map fun g => { g with loans := sortByDue g.loans }

/-- The filter of `getExpiredLoans` (`src/unnamed/part_010:81-108`): not
defaulted, no (truthy) default date, valid due date strictly before today,
and not fully repaid. -/
def expiredFilter (today : Int) (l : LoanData) : Bool :=
  !(l.is_defaulted || hasDefaultDate l) &&
    (match l.loan_due_date with
     | some d => d < today
     | none => false) &&
    (isMissingRepaidAmount l || repaidLt l l.loan_amount)

/-- The `getExpiredLoans` (`src/unnamed/part_010:66-116`): filter then sort by due
date ascending. -/
def getExpiredLoans (today : Int) (loans : List LoanData) : List LoanData :=
  sortByDue (loans.filter (expiredFilter today))

/-! ## CSV ingestion pipeline (`src/src/utils/csvParser.ts`)

Strings are processed through their character lists so that all definitions
are executable by kernel reduction.  JS `toLowerCase`/`trim` are modelled at
ASCII/Unicode-whitespace granularity, which covers every spelling in the
synonym table. -/

/-- The characters collapsed by the `/[\s_-]+/g` replacement in
`normalizeHeaderName` (`csvParser.ts:43`). -/
def isSepChar (c : Char) : Bool :=
  c.isWhitespace || c = '_' || c = '-'

/-- A `\w` word character (`csvParser.ts:44`). -/
def isWordChar (c : Char) : Bool :=
  ('a' ≤ c && c ≤ 'z') || ('A' ≤ c && c ≤ 'Z') || ('0' ≤ c && c ≤ '9') || c = '_'

/-- The `replace(/[\s_-]+/g, '_')`: each maximal run of separator characters
becomes a single underscore.  The flag records whether the previous character
was part of a separator run. -/
def collapseSeps : Bool → List Char → List Char
  | _, [] => []
  | prevSep, c :: rest =>
      if isSepChar c then
        if prevSep then collapseSeps true rest
        else '_' :: collapseSeps true rest
      else c :: collapseSeps false rest

/-- JS `String.prototype.trim` on a character list. -/
def trimChars (cs : List Char) : List Char :=
  ((cs.dropWhile Char.isWhitespace).reverse.dropWhile Char.isWhitespace).reverse

/-- The `normalizeHeaderName` (`csvParser.ts:40-45`): lowercase, trim, collapse
separator runs to `_`, strip remaining non-word characters. -/
def normalizeHeaderName (header : String) : String :=
  String.mk ((collapseSeps false (trimChars (header.data.map Char.toLower))).filter
    isWordChar)

/-- The `COLUMN_MAPPINGS` (`csvParser.ts:9-20`), in object-literal order. -/
def COLUMN_MAPPINGS : List (String × List String) :=
  [ ("user_wallet",
      ["user_wallet", "wallet", "user wallet", "address", "wallet_address",
       "user_address", "wallet address"])
  , ("loan_amount",
      ["loan_amount", "amount", "loan amount", "principal", "loan_principal",
       "loan principal", "value"])
  , ("loan_term",
      ["loan_term", "term", "duration", "period", "loan_duration",
       "loan duration", "days", "loan_days"])
  , ("loan_due_date",
      ["loan_due_date", "due_date", "due date", "maturity_date", "maturity date",
       "expiry_date", "expiry date"])
  , ("loan_repaid_amount",
      ["loan_repaid_amount", "repaid_amount", "repaid amount", "paid_amount",
       "paid amount", "repayment", "paid"])
  , ("time_loan_started",
      ["time_loan_started", "date_loan_started", "loan_started", "start_date",
       "started", "inception_date", "inception", "origination_date"])
  , ("time_loan_ended",
      ["time_loan_ended", "date_loan_ended", "loan_ended", "end_date", "ended",
       "termination_date", "repayment_date", "completion_date"])
  , ("default_loan_date",
      ["default_loan_date", "date_loan_defaulted", "defaulted_date",
       "default_date", "loan_defaulted", "defaulted at", "default_time"])
  , ("is_defaulted",
      ["is_defaulted", "defaulted", "is defaulted", "default", "loan_defaulted",
       "has_defaulted", "in_default"])
  , ("version", ["version", "ver", "loan_version", "loan version", "v"]) ]

/-- The `findStandardFieldName` (`csvParser.ts:48-65`): scan the mapping table in
order; the first canonical field whose normalised synonym list contains the
normalised header wins. -/
def findStandardFieldName (header : String) : Option String :=
  let normalizedHeader := normalizeHeaderName header
  (COLUMN_MAPPINGS.find? fun p =>
    (p.2.map normalizeHeaderName).contains normalizedHeader).map Prod.fst

/-- A JavaScript runtime value as it can appear in the duck-typed `loan`
field bag built by `parseCSV`'s row loop. -/
inductive JsValue where
  | undef
  | null
  | nan
  | num (q : Rat)
  | bool (b : Bool)
  | str (s : String)
  deriving DecidableEq, Repr

/-- JS truthiness test (`!x`): `undefined`, `null`, `NaN`, `0`, `false` and
`""` are falsy. -/
def JsValue.falsy : JsValue → Bool
  | .undef => true
  | .null => true
  | .nan => true
  | .num q => q == 0
  | .bool b => !b
  | .str s => s == ""

/-- Digit run to natural number. -/
def digitsToNat (ds : List Char) : Nat :=
  ds.foldl (fun a c => 10 * a + (c.toNat - '0'.toNat)) 0

def pow10 (e : Int) : Rat :=
  if 0 ≤ e then (10 : Rat) ^ e.toNat else 1 / (10 : Rat) ^ (-e).toNat

/-- Model of JS `parseFloat` (`none` = `NaN`): skip leading whitespace, read
an optional sign, decimal digits with an optional fraction and an optional
well-formed exponent; trailing junk is ignored; no digits at all means
`NaN`.  (The `Infinity` literal is not modelled; no claim depends on it.) -/
def jsParseFloat (s : String) : Option Rat :=
  let cs := s.data.dropWhile Char.isWhitespace
  let sign : Rat := if cs.head? = some '-' then -1 else 1
  let cs := if cs.head? = some '-' ∨ cs.head? = some '+' then cs.tail else cs
  let ds := cs.takeWhile Char.isDigit
  let rest := cs.dropWhile Char.isDigit
  let fs :=
    match rest with
    | '.' :: r => r.takeWhile Char.isDigit
    | _ => []
  let rest2 :=
    match rest with
    | '.' :: r => r.dropWhile Char.isDigit
    | _ => rest
  if ds.isEmpty && fs.isEmpty then none
  else
    let mant : Rat :=
      (digitsToNat ds : Rat) + (digitsToNat fs : Rat) / (10 : Rat) ^ fs.length
    let expVal : Int :=
      match rest2 with
      | e :: r =>
          if e = 'e' ∨ e = 'E' then
            let esign : Int := if r.head? = some '-' then -1 else 1
            let r2 := if r.head? = some '-' ∨ r.head? = some '+' then r.tail else r
            let eds := r2.takeWhile Char.isDigit
            if eds.isEmpty then 0 else esign * (digitsToNat eds : Int)
          else 0
      | [] => 0
    some (sign * mant * pow10 expVal)

/-- The `parseFloat(value) || 0` (`csvParser.ts:173`): `NaN` falls back to `0`;
a parsed `0` is falsy and also yields the literal `0`. -/
def parseFloatOr0 (v : String) : Rat :=
  match jsParseFloat v with
  | some q => if q == 0 then 0 else q
  | none => 0

/-- JS `toLowerCase` (ASCII model). -/
def lowerStr (s : String) : String :=
  String.mk (s.data.map Char.toLower)

/-- The `value && value !== "" ? value : null` for the four date fields
(`csvParser.ts:180-187`). -/
def dateCell (v : String) : JsValue :=
  if v ≠ "" then .str v else .null

/-- The `value ? parseFloat(value) : null` for `loan_repaid_amount`
(`csvParser.ts:174-176`): a non-empty unparseable cell holds `NaN` at this
point (it is nulled out later by the `!loan.loan_repaid_amount` fix-up). -/
def repaidCell (v : String) : JsValue :=
  if v ≠ "" then
    match jsParseFloat v with
    | some q => .num q
    | none => .nan
  else .null

/-- The duck-typed `loan` object assembled by the row loop; every field
starts out `undefined`. -/
structure JsLoan where
  user_wallet : JsValue := .undef
  loan_amount : JsValue := .undef
  loan_term : JsValue := .undef
  loan_repaid_amount : JsValue := .undef
  is_defaulted : JsValue := .undef
  loan_due_date : JsValue := .undef
  default_loan_date : JsValue := .undef
  time_loan_started : JsValue := .undef
  time_loan_ended : JsValue := .undef
  version : JsValue := .undef
  deriving DecidableEq, Repr

/-- One `loan[standardField] = ...` assignment (`csvParser.ts:168-191`), with
the branches in source order.  The trailing cases model the `else` branch
`loan[standardField] = value || ""` for the remaining canonical fields
(`user_wallet` and `version` are the only ones that reach it); for strings
`value || ""` is `value` in both the empty and non-empty case. -/
def setField (j : JsLoan) (f : String) (v : String) : JsLoan :=
  if f = "loan_amount" then { j with loan_amount := .num (parseFloatOr0 v) }
  else if f = "loan_term" then { j with loan_term := .num (parseFloatOr0 v) }
  else if f = "loan_repaid_amount" then { j with loan_repaid_amount := repaidCell v }
  else if f = "is_defaulted" then
    { j with is_defaulted := .bool (lowerStr v == "true") }
  else if f = "default_loan_date" then { j with default_loan_date := dateCell v }
  else if f = "time_loan_ended" then { j with time_loan_ended := dateCell v }
  else if f = "loan_due_date" then { j with loan_due_date := dateCell v }
  else if f = "time_loan_started" then { j with time_loan_started := dateCell v }
  else if f = "user_wallet" then { j with user_wallet := .str v }
  else if f = "version" then { j with version := .str v }
  else j

/-- The `values.forEach((value, index) => ...)` loop (`csvParser.ts:168-191`):
cells whose index has no recognised header are skipped. -/
def mapCells (hm : List (Option String)) (cells : List String) : JsLoan :=
  cells.enum.foldl
    (fun j iv =>
      match hm.getD iv.1 none with
      | none => j
      | some f => setField j f iv.2)
    {}

/-- The `new Date(2099, 12, 31).toISOString().split('T')[0]` (`csvParser.ts:200`):
JS months are zero-based, so month `12` overflows into January 2100; under a
UTC reference frame the ISO date part is `2100-01-31`. -/
def farFutureDueDate : String := "2100-01-31"

/-- The required-field default fill (`csvParser.ts:193-203`): for each
required field other than `user_wallet`, a falsy value (missing column,
empty/unparsed cell coerced to `null`, or numeric `0`) is replaced by the
field's default. -/
def fillRequiredDefaults (j : JsLoan) : JsLoan :=
  let j := if j.loan_amount.falsy then { j with loan_amount := .num 0 } else j
  let j := if j.loan_term.falsy then { j with loan_term := .num 0 } else j
  if j.loan_due_date.falsy then { j with loan_due_date := .str farFutureDueDate }
  else j

def jsToStr : JsValue → String
  | .str s => s
  | _ => ""

def jsToStrOpt : JsValue → Option String
  | .str s => some s
  | _ => none

def jsToNum : JsValue → Rat
  | .num q => q
  | _ => 0

def jsToNumOpt : JsValue → Option Rat
  | .num q => some q
  | _ => none

/-- The typed loan record produced by one accepted CSV row. -/
structure LoanRow where
  user_wallet : String
  loan_amount : Rat
  loan_term : Rat
  loan_repaid_amount : Option Rat
  is_defaulted : Bool
  loan_due_date : String
  default_loan_date : Option String
  time_loan_started : Option String
  time_loan_ended : Option String
  version : String
  deriving DecidableEq, Repr

/-- The post-acceptance fix-ups (`csvParser.ts:214-217`) resolved into typed
fields: `is_defaulted === undefined` becomes `false`, a falsy
`loan_repaid_amount` (including `NaN` and `0`) becomes `null`, a falsy
`version` becomes `""`. -/
def finalizeRow (j : JsLoan) : LoanRow :=
  { user_wallet := jsToStr j.user_wallet
  , loan_amount := jsToNum j.loan_amount
  , loan_term := jsToNum j.loan_term
  , loan_repaid_amount :=
      if j.loan_repaid_amount.falsy then none else jsToNumOpt j.loan_repaid_amount
  , is_defaulted :=
      match j.is_defaulted with
      | .bool b => b
      | _ => false
  , loan_due_date := jsToStr j.loan_due_date
  , default_loan_date := jsToStrOpt j.default_loan_date
  , time_loan_started := jsToStrOpt j.time_loan_started
  , time_loan_ended := jsToStrOpt j.time_loan_ended
  , version := if j.version.falsy then "" else jsToStr j.version }

/-- The row normalizer (`csvParser.ts:164-220`): map the cells through the
header map, fill required-field defaults, reject when the resolved
`user_wallet` is falsy, otherwise finalize. -/
def normalizeRow (hm : List (Option String)) (cells : List String) :
    Option LoanRow :=
  let j := fillRequiredDefaults (mapCells hm cells)
  if j.user_wallet.falsy then none else some (finalizeRow j)

/-- Single-character split, the model of JS `String.prototype.split` with a
one-character separator. -/
def splitOnChar (sep : Char) : List Char → List (List Char)
  | [] => [[]]
  | c :: rest =>
      let r := splitOnChar sep rest
      if c = sep then [] :: r
      else
        match r with
        | [] => [[c]]
        | h :: t => (c :: h) :: t

/-- One piece produced by splitting on `/\r\n|\n/`: splitting on `'\n'` and
then removing a single trailing `'\r'` yields exactly the pieces of the
regex split. -/
def dropTrailingCR (cs : List Char) : List Char :=
  if cs.getLast? = some '\r' then cs.dropLast else cs

/-- The `csvText.split(/\r\n|\n/)` (`csvParser.ts:87`). -/
def splitLines (s : String) : List String :=
  (splitOnChar '\n' s.data).map fun cs => String.mk (dropTrailingCR cs)

/-- The `line.split(',').map(v => v.trim())` (`csvParser.ts:94` and `:164`). -/
def splitCommaTrim (s : String) : List String :=
  (splitOnChar ',' s.data).map fun cs => String.mk (trimChars cs)

def requiredFields : List String :=
  ["user_wallet", "loan_amount", "loan_term", "loan_due_date"]

/-- The `headerMap` (`csvParser.ts:99-117`) as a positional list: entry `i`
is the canonical field matched for column `i`, if any. -/
def headerMapOf (headerRow : String) : List (Option String) :=
  (splitCommaTrim headerRow).map findStandardFieldName

/-- The `missingRequiredHeaders` (`csvParser.ts:122-127`). -/
def missingRequired (hm : List (Option String)) : List String :=
  requiredFields.filter fun f => !(hm.contains (some f))

def joinComma : List String → String
  | [] => ""
  | [s] => s
  | s :: rest => s ++ ", " ++ joinComma rest

/-- The fatal all-required-missing error (`csvParser.ts:130-139`), listing the
required canonical fields and the fields actually found. -/
def allMissingError (hm : List (Option String)) : String :=
  let errorMsg :=
    "CSV is missing all required fields. Required: " ++ joinComma requiredFields
  let foundHeaders := joinComma (hm.filterMap id)
  errorMsg ++ "\n\nFound fields: " ++
    (if foundHeaders = "" then "None" else foundHeaders) ++
    "\n\nPlease ensure your CSV contains the required columns or their variations."

/-- The degraded-mode warning (`csvParser.ts:141-146`). -/
def someMissingWarning (missing : List String) : String :=
  "Warning: CSV is missing some required fields: " ++ joinComma missing ++
    ". Processing will continue with available data."

/-- The non-fatal skipped-rows warning (`csvParser.ts:252-254`). -/
def rowWarningMsg (invalidRows : Nat) : String :=
  toString invalidRows ++ " rows had validation errors and were skipped."

/-- The zero-valid-rows validation error (`csvParser.ts:232-242`). -/
def noValidDataError (invalidRows : Nat) : String :=
  "No valid loan data found. " ++ toString invalidRows ++
    " rows had validation errors."

/-- The row-loop progress value (`csvParser.ts:226`):
`Math.min(20 + Math.floor((p / totalLines) * 30), 50)`.  Modelled with exact
integer arithmetic; double rounding can move a value across the floor
boundary by one, but the claims depend only on monotonicity and range, which
hold either way. -/
def rowPercent (totalLines p : Nat) : Nat :=
  min (20 + p * 30 / totalLines) 50

/-- Row-loop accumulator.  `validRows` doubles as the loop's
`processedLines`: the source increments both on exactly the accepted rows. -/
structure RowState where
  loans : List LoanRow := []
  invalidRows : Nat := 0
  validRows : Nat := 0
  deriving DecidableEq, Repr

/-- The `!lines[i].trim()` (`csvParser.ts:162`). -/
def isBlankLine (line : String) : Bool :=
  String.mk (trimChars line.data) == ""

/-- The data-row loop (`csvParser.ts:161-229`): skip blank lines, reject rows
without a resolved wallet (counting them), accumulate accepted records in
order, and emit the periodic progress percentages. -/
def processRows (hm : List (Option String)) (totalLines : Nat) :
    List String → RowState → RowState × List Nat
  | [], st => (st, [])
  | line :: rest, st =>
      if isBlankLine line then processRows hm totalLines rest st
      else
        match normalizeRow hm (splitCommaTrim line) with
        | none =>
            processRows hm totalLines rest
              { st with invalidRows := st.invalidRows + 1 }
        | some r =>
            let v := st.validRows + 1
            let st1 : RowState :=
              { loans := st.loans ++ [r], invalidRows := st.invalidRows,
                validRows := v }
            let evs :=
              if v % max 1 (totalLines / 20) == 0 || v == totalLines then
                [rowPercent totalLines v]
              else []
            let res := processRows hm totalLines rest st1
            (res.1, evs ++ res.2)

/-- The outcome of the data-row phase (`csvParser.ts:148-254`): progress
percentages, non-fatal warnings, and either the accumulated state or one of
the two zero-valid-rows errors. -/
def rowPhase (hm : List (Option String)) (totalLines : Nat)
    (dataLines : List String) :
    List Nat × List String × Except String RowState :=
  let res := processRows hm totalLines dataLines {}
  let evs := 10 :: 20 :: res.2
  if res.1.loans.isEmpty then
    if res.1.invalidRows > 0 then
      (evs, [], .error (noValidDataError res.1.invalidRows))
    else (evs, [], .error "No loan data found in CSV file")
  else
    (evs,
      if res.1.invalidRows > 0 then [rowWarningMsg res.1.invalidRows] else [],
      .ok res.1)

/-- The pure core of `parseCSV` (`csvParser.ts:67-254`), up to the hand-off to
persistence: the list of progress percentages passed to the callback, the
non-fatal `toast.warning` messages, and the parse outcome. -/
def parseCSVText (csvText : String) :
    List Nat × List String × Except String RowState :=
  if csvText = "" then ([10], [], .error "Failed to read file content")
  else
    let lines := splitLines csvText
    if lines.length < 2 then
      ([10], [], .error "CSV file is empty or has only headers")
    else
      let hm := headerMapOf (lines.headD "")
      let missing := missingRequired hm
      if missing.length = requiredFields.length then
        ([10], [], .error (allMissingError hm))
      else
        let hw := if missing.length > 0 then [someMissingWarning missing] else []
        let res := rowPhase hm (lines.length - 1) (lines.drop 1)
        (res.1, hw ++ res.2.1, res.2.2)

/-! ## Persistence hand-off (`storeLoansInDatabase`, `csvParser.ts:330-392`) -/

/-- The row shape sent to the `loans` table (`csvParser.ts:336-348`). -/
structure DbLoan where
  user_wallet : String
  loan_amount : Rat
  loan_repaid_amount : Option Rat
  loan_term : Rat
  time_loan_started : Option String
  time_loan_ended : Option String
  loan_due_date : String
  default_loan_date : Option String
  is_defaulted : Bool
  version : String
  file_upload_id : String
  deriving DecidableEq, Repr

/-- The `loansToUpsert` mapping (`csvParser.ts:336-348`). -/
def toDbLoan (fileUploadId : String) (l : LoanRow) : DbLoan :=
  { user_wallet := l.user_wallet
  , loan_amount := l.loan_amount
  , loan_repaid_amount := l.loan_repaid_amount
  , loan_term := l.loan_term
  , time_loan_started := l.time_loan_started
  , time_loan_ended := l.time_loan_ended
  , loan_due_date := l.loan_due_date
  , default_loan_date := l.default_loan_date
  , is_defaulted := l.is_defaulted
  , version := l.version
  , file_upload_id := fileUploadId }

/-- The `onConflict` key of the upsert (`csvParser.ts:369`). -/
def upsertKey : String := "user_wallet,loan_amount,loan_due_date"

/-- One `supabase.from('loans').upsert(batch, { onConflict: ... })` call
issued by the batch loop. -/
structure UpsertOp where
  rows : List DbLoan
  onConflict : String
  deriving DecidableEq, Repr

/-- The batching loop (`csvParser.ts:351-356`):
`for (i = 0; i < n; i += 100) batches.push(slice(i, i + 100))`. -/
def chunk100 (l : List DbLoan) : List (List DbLoan) :=
  if l.isEmpty then [] else l.take 100 :: chunk100 (l.drop 100)
termination_by l.length
decreasing_by
  rename_i h
  rw [List.length_drop]
  have : l ≠ [] := by simpa [List.isEmpty_iff] using h
  have := List.length_pos.mpr this
  omega

/-- The sequential batch loop (`csvParser.ts:363-389`): issue each batch as
an upsert keyed on the natural key; a batch error stops the loop (the
progress update sits after the error check, so a failing batch emits no
percentage); otherwise report `60 + floor(processed / total * 30)`.
`upsertError` abstracts the backend's per-call outcome. -/
def runBatches (upsertError : List DbLoan → Option String) (totalCount : Nat) :
    Nat → List (List DbLoan) → List UpsertOp × Option String × List Nat
  | _, [] => ([], none, [])
  | processedCount, batch :: batches =>
      match upsertError batch with
      | some e => ([⟨batch, upsertKey⟩], some e, [])
      | none =>
          let pc := processedCount + batch.length
          let res := runBatches upsertError totalCount pc batches
          (⟨batch, upsertKey⟩ :: res.1, res.2.1, (60 + pc * 30 / totalCount) :: res.2.2)

/-- The `storeLoansInDatabase` (`csvParser.ts:330-392`): map to the DB row shape,
chunk into batches of 100 and run them sequentially.  Returns the issued
upsert calls, the first error (if any), and the emitted progress
percentages. -/
def storeLoansInDatabase (upsertError : List DbLoan → Option String)
    (fileUploadId : String) (loans : List LoanRow) :
    List UpsertOp × Option String × List Nat :=
  let loansToUpsert := loans.map (toDbLoan fileUploadId)
  runBatches upsertError loansToUpsert.length 0 (chunk100 loansToUpsert)

/-- The full sequence of percentages passed to the progress callback during
one ingestion call (`processFile` in the uploader component wrapping
`parseCSV`): `5` up front, the parse-phase percentages, then on parse success
`50`, `60`, the per-batch percentages, and on full success `95` (from
`parseCSV`) and the caller's final `100`.  `fileUploadOk` and `upsertError`
abstract the two backend calls.  (The uploader's `updateProgress(0, '')`
state reset after a *failed* ingestion happens once the promise has already
rejected, outside the ingestion call itself.) -/
def ingestPercents (csvText : String) (fileUploadOk : Bool)
    (upsertError : List DbLoan → Option String) (fileUploadId : String) :
    List Nat :=
  let parsed := parseCSVText csvText
  5 ::
    (match parsed.2.2 with
     | .error _ => parsed.1
     | .ok st =>
         parsed.1 ++ [50] ++
           (if fileUploadOk then
             let stored := storeLoansInDatabase upsertError fileUploadId st.loans
             [60] ++ stored.2.2 ++
               (match stored.2.1 with
                | none => [95, 100]
                | some _ => [])
           else []))

/-- The records the row loop accepts, line by line: blank lines skipped,
each remaining line normalised independently. -/
def validRecords (hm : List (Option String)) (dataLines : List String) :
    List LoanRow :=
  dataLines.filterMap fun line =>
    if isBlankLine line then none else normalizeRow hm (splitCommaTrim line)

/-- The number of non-blank rows the row loop rejects. -/
def rejectedCount (hm : List (Option String)) (dataLines : List String) : Nat :=
  (dataLines.filter fun line =>
    !isBlankLine line && (normalizeRow hm (splitCommaTrim line)).isNone).length

/-- The bucket-membership test of `groupLoansByDueDate`: the due date parses
and `diffDays <= group.days`. -/
def bucketPred (today : Int) (days : Nat) (l : LoanData) : Bool :=
  l.loan_due_date.isSome && daysUntilDue today l ≤ days

/-! ## Metrics-engine lemmas -/

theorem tierStep_repaid_changed {df rp ip : Bool} {t : TierMetrics}
    (h : (tierStep df rp ip t).repaid ≠ t.repaid) : df = false ∧ rp = true := by
  unfold tierStep at h
  cases df <;> cases rp <;> cases ip <;> simp_all

/-- The `oneDollarLoans` component of one `calculateLoanMetrics` step: only the
`$1`-tier branch touches it. -/
theorem metricsStep_oneDollarLoans (today : Int) (m : LoanMetrics) (l : LoanData) :
    (metricsStep today m l).oneDollarLoans =
      if |l.loan_amount - 1| < (1 : Rat)/100 then
        tierStep (l.is_defaulted || hasDefaultDate l)
          (!isMissingRepaidAmount l && repaidGe l (1.025 : Rat))
          ((isMissingRepaidAmount l || repaidLt l (1.025 : Rat)) &&
            isDueDateInFuture today l)
          m.oneDollarLoans
      else m.oneDollarLoans := by
  simp only [metricsStep]
  split_ifs <;> rfl

/-- The `tenDollarLoans` component of one `calculateLoanMetrics` step. -/
theorem metricsStep_tenDollarLoans (today : Int) (m : LoanMetrics) (l : LoanData) :
    (metricsStep today m l).tenDollarLoans =
      if |l.loan_amount - 10| < (1 : Rat)/100 then
        tierStep (l.is_defaulted || hasDefaultDate l)
          (!isMissingRepaidAmount l && repaidGe l (10.15 : Rat))
          ((isMissingRepaidAmount l || repaidLt l (10.15 : Rat)) &&
            isDueDateInFuture today l)
          m.tenDollarLoans
      else m.tenDollarLoans := by
  simp only [metricsStep]
  split_ifs <;> rfl

theorem tierStep_sum_le {df rp ip : Bool} {t : TierMetrics}
    (h : t.defaulted + t.repaid + t.inProgress ≤ t.total) :
    (tierStep df rp ip t).defaulted + (tierStep df rp ip t).repaid +
      (tierStep df rp ip t).inProgress ≤ (tierStep df rp ip t).total := by
  unfold tierStep
  cases df <;> cases rp <;> cases ip <;> simp <;> omega

/-- The tier sums `defaulted + repaid + inProgress ≤ total` are preserved by
one `forEach` step of `calculateLoanMetrics`. -/
theorem metricsStep_sum_le (today : Int) (m : LoanMetrics) (l : LoanData)
    (h1 : m.oneDollarLoans.defaulted + m.oneDollarLoans.repaid +
      m.oneDollarLoans.inProgress ≤ m.oneDollarLoans.total)
    (h10 : m.tenDollarLoans.defaulted + m.tenDollarLoans.repaid +
      m.tenDollarLoans.inProgress ≤ m.tenDollarLoans.total) :
    ((metricsStep today m l).oneDollarLoans.defaulted +
        (metricsStep today m l).oneDollarLoans.repaid +
        (metricsStep today m l).oneDollarLoans.inProgress ≤
        (metricsStep today m l).oneDollarLoans.total) ∧
    ((metricsStep today m l).tenDollarLoans.defaulted +
        (metricsStep today m l).tenDollarLoans.repaid +
        (metricsStep today m l).tenDollarLoans.inProgress ≤
        (metricsStep today m l).tenDollarLoans.total) := by
  rw [metricsStep_oneDollarLoans, metricsStep_tenDollarLoans]
  constructor <;> split_ifs <;>
    first
      | exact tierStep_sum_le h1
      | exact tierStep_sum_le h10
      | exact h1
      | exact h10

theorem mem_insertByDue {a x : LoanData} {l : List LoanData} :
    a ∈ insertByDue x l ↔ a = x ∨ a ∈ l := by
  induction l with
  | nil => simp [insertByDue]
  | cons y ys ih =>
      unfold insertByDue
      split_ifs <;> simp [ih] <;> tauto

theorem mem_sortByDue {a : LoanData} {l : List LoanData} :
    a ∈ sortByDue l ↔ a ∈ l := by
  induction l with
  | nil => simp [sortByDue]
  | cons y ys ih => simp [sortByDue, mem_insertByDue, ih]

theorem pairwise_insertByDue {x : LoanData} {l : List LoanData}
    (h : l.Pairwise (fun a b => dueKey a ≤ dueKey b)) :
    (insertByDue x l).Pairwise (fun a b => dueKey a ≤ dueKey b) := by
  induction l with
  | nil => simp [insertByDue]
  | cons y ys ih =>
      unfold insertByDue
      rcases List.pairwise_cons.mp h with ⟨hy, hys⟩
      split_ifs with hle
      · refine List.pairwise_cons.mpr ⟨?_, h⟩
        intro b hb
        rcases List.mem_cons.mp hb with rfl | hb2
        · exact hle
        · exact le_trans hle (hy b hb2)
      · refine List.pairwise_cons.mpr ⟨?_, ih hys⟩
        intro b hb
        rcases mem_insertByDue.mp hb with rfl | hb2
        · exact le_of_not_le hle
        · exact hy b hb2

theorem pairwise_sortByDue (l : List LoanData) :
    (sortByDue l).Pairwise (fun a b => dueKey a ≤ dueKey b) := by
  induction l with
  | nil => simp [sortByDue]
  | cons y ys ih => exact pairwise_insertByDue ih

theorem addToGroups_eq (today : Int) (gs : List DueDateGroup) (l : LoanData) :
    addToGroups today gs l =
      gs.map fun g =>
        if bucketPred today g.days l then
          { g with count := g.count + 1, loans := g.loans ++ [l] }
        else g := by
  unfold addToGroups bucketPred
  cases h : l.loan_due_date <;> simp [h]

theorem foldl_addToGroups_eq (today : Int) (loans : List LoanData)
    (gs : List DueDateGroup) :
    loans.foldl (addToGroups today) gs =
      gs.map fun g =>
        { g with
          count := g.count + (loans.filter (bucketPred today g.days)).length,
          loans := g.loans ++ loans.filter (bucketPred today g.days) } := by
  induction loans generalizing gs with
  | nil => simp
  | cons l ls ih =>
      rw [List.foldl_cons, ih, addToGroups_eq, List.map_map]
      refine List.map_congr_left fun g _ => ?_
      by_cases hb : bucketPred today g.days l
      · simp [Function.comp, hb, List.filter_cons, List.length_cons]
        omega
      · simp [Function.comp, hb, List.filter_cons]

/-- Closed form of `groupLoansByDueDate`: each of the six fixed groups holds
exactly the active loans whose days-until-due is at most its threshold,
sorted by due date. -/
theorem groupLoansByDueDate_eq (today : Int) (loans : List LoanData) :
    groupLoansByDueDate today loans =
      initialDueGroups.map fun g =>
        { g with
          count :=
            ((loans.filter (activeFilter today)).filter
              (bucketPred today g.days)).length,
          loans :=
            sortByDue ((loans.filter (activeFilter today)).filter
              (bucketPred today g.days)) } := by
  simp only [groupLoansByDueDate]
  rw [foldl_addToGroups_eq, List.map_map]
  refine List.map_congr_left fun g hg => ?_
  fin_cases hg <;> simp [Function.comp]

theorem foldl_metricsStep_sum_le (today : Int) (loans : List LoanData)
    (m : LoanMetrics)
    (h1 : m.oneDollarLoans.defaulted + m.oneDollarLoans.repaid +
      m.oneDollarLoans.inProgress ≤ m.oneDollarLoans.total)
    (h10 : m.tenDollarLoans.defaulted + m.tenDollarLoans.repaid +
      m.tenDollarLoans.inProgress ≤ m.tenDollarLoans.total) :
    (let r := loans.foldl (metricsStep today) m
     r.oneDollarLoans.defaulted + r.oneDollarLoans.repaid +
        r.oneDollarLoans.inProgress ≤ r.oneDollarLoans.total ∧
     r.tenDollarLoans.defaulted + r.tenDollarLoans.repaid +
        r.tenDollarLoans.inProgress ≤ r.tenDollarLoans.total) := by
  induction loans generalizing m with
  | nil => exact ⟨h1, h10⟩
  | cons l ls ih =>
      have h := metricsStep_sum_le today m l h1 h10
      exact ih (metricsStep today m l) h.1 h.2

/-! ## Claims about the metrics engine -/

/-- C1: A `$1`-tier loan (`loan_amount = 1`) is counted `repaid` by
`calculateLoanMetrics` only when `loan_repaid_amount` is non-null and at
least `1.025`, and a `$10`-tier loan (`loan_amount = 10`) only when it is
non-null and at least `10.15`; in particular a non-defaulted `$1` loan with
a current due date and `repaid_amount = 1.00` is counted in-progress, not
repaid, while `repaid_amount = 1.03` is counted repaid. -/
theorem calculateLoanMetrics_repaid_threshold :
    (∀ (today : Int) (m : LoanMetrics) (l : LoanData), l.loan_amount = 1 →
      (metricsStep today m l).oneDollarLoans.repaid ≠ m.oneDollarLoans.repaid →
        ∃ r, l.loan_repaid_amount = some r ∧ (1.025 : Rat) ≤ r) ∧
    (∀ (today : Int) (m : LoanMetrics) (l : LoanData), l.loan_amount = 10 →
      (metricsStep today m l).tenDollarLoans.repaid ≠ m.tenDollarLoans.repaid →
        ∃ r, l.loan_repaid_amount = some r ∧ (10.15 : Rat) ≤ r) ∧
    (∀ (today : Int) (l : LoanData), l.loan_amount = 1 →
      l.is_defaulted = false → l.default_loan_date = none →
      l.loan_repaid_amount = some 1 → isDueDateInFuture today l = true →
        (calculateLoanMetrics today [l]).oneDollarLoans.inProgress = 1 ∧
        (calculateLoanMetrics today [l]).oneDollarLoans.repaid = 0) ∧
    (∀ (today : Int) (l : LoanData), l.loan_amount = 1 →
      l.is_defaulted = false → l.default_loan_date = none →
      l.loan_repaid_amount = some (1.03 : Rat) →
        (calculateLoanMetrics today [l]).oneDollarLoans.repaid = 1 ∧
        (calculateLoanMetrics today [l]).oneDollarLoans.inProgress = 0) := by
  refine ⟨?_, ?_, ?_, ?_⟩
  · intro today m l h1 hne
    rw [metricsStep_oneDollarLoans,
      if_pos (show |l.loan_amount - 1| < (1 : Rat)/100 by rw [h1]; norm_num)] at hne
    have h := tierStep_repaid_changed hne
    rcases h with ⟨-, hrp⟩
    cases hmr : l.loan_repaid_amount with
    | none => simp [isMissingRepaidAmount, hmr] at hrp
    | some r =>
        refine ⟨r, rfl, ?_⟩
        simpa [isMissingRepaidAmount, repaidGe, hmr] using hrp
  · intro today m l h10 hne
    rw [metricsStep_tenDollarLoans,
      if_pos (show |l.loan_amount - 10| < (1 : Rat)/100 by rw [h10]; norm_num)] at hne
    have h := tierStep_repaid_changed hne
    rcases h with ⟨-, hrp⟩
    cases hmr : l.loan_repaid_amount with
    | none => simp [isMissingRepaidAmount, hmr] at hrp
    | some r =>
        refine ⟨r, rfl, ?_⟩
        simpa [isMissingRepaidAmount, repaidGe, hmr] using hrp
  · intro today l h1 hdef hdd hrep hfut
    have hone : (calculateLoanMetrics today [l]).oneDollarLoans =
        tierStep false false true ({} : TierMetrics) := by
      show (metricsStep today { totalLoans := 1 } l).oneDollarLoans = _
      rw [metricsStep_oneDollarLoans,
        if_pos (show |l.loan_amount - 1| < (1 : Rat)/100 by rw [h1]; norm_num)]
      have : hasDefaultDate l = false := by simp [hasDefaultDate, hdd]
      simp [hdef, this, isMissingRepaidAmount, repaidGe, repaidLt, hrep, hfut]
      norm_num
    rw [hone]
    constructor <;> rfl
  · intro today l h1 hdef hdd hrep
    have hone : (calculateLoanMetrics today [l]).oneDollarLoans =
        tierStep false true
          ((false || repaidLt l (1.025 : Rat)) && isDueDateInFuture today l)
          ({} : TierMetrics) := by
      show (metricsStep today { totalLoans := 1 } l).oneDollarLoans = _
      rw [metricsStep_oneDollarLoans,
        if_pos (show |l.loan_amount - 1| < (1 : Rat)/100 by rw [h1]; norm_num)]
      have : hasDefaultDate l = false := by simp [hasDefaultDate, hdd]
      simp [hdef, this, isMissingRepaidAmount, repaidGe, repaidLt, hrep]
      norm_num
    rw [hone]
    have : repaidLt l (1.025 : Rat) = false := by
      simp [repaidLt, hrep]
      norm_num
    rw [this]
    constructor <;> simp [tierStep]

/-- Witness for C1: `today = 0`; a `$1` loan due tomorrow, repaid exactly
`1.00`, is counted in-progress and not repaid. -/
theorem calculateLoanMetrics_repaid_threshold_witness :
    (calculateLoanMetrics 0
        [⟨"0xA", 1, some 1, 30, some 1, none, false, ""⟩]).oneDollarLoans.inProgress
        = 1 ∧
    (calculateLoanMetrics 0
        [⟨"0xA", 1, some 1, 30, some 1, none, false, ""⟩]).oneDollarLoans.repaid
        = 0 :=
  calculateLoanMetrics_repaid_threshold.2.2.1 0
    ⟨"0xA", 1, some 1, 30, some 1, none, false, ""⟩ rfl rfl rfl rfl (by decide)

/-- C10: Per denomination tier, `defaulted + repaid + inProgress ≤ total`,
and the inequality is strict for some input: a non-defaulted `$1` loan with
below-threshold repayment and a past due date bumps `total` only. -/
theorem calculateLoanMetrics_tier_counters_le_total :
    (∀ (today : Int) (loans : List LoanData),
      ((calculateLoanMetrics today loans).oneDollarLoans.defaulted +
        (calculateLoanMetrics today loans).oneDollarLoans.repaid +
        (calculateLoanMetrics today loans).oneDollarLoans.inProgress ≤
        (calculateLoanMetrics today loans).oneDollarLoans.total) ∧
      ((calculateLoanMetrics today loans).tenDollarLoans.defaulted +
        (calculateLoanMetrics today loans).tenDollarLoans.repaid +
        (calculateLoanMetrics today loans).tenDollarLoans.inProgress ≤
        (calculateLoanMetrics today loans).tenDollarLoans.total)) ∧
    ((calculateLoanMetrics 0
        [⟨"0xC", 1, some (1/2 : Rat), 30, some (-1), none, false, ""⟩]
      ).oneDollarLoans.defaulted +
      (calculateLoanMetrics 0
        [⟨"0xC", 1, some (1/2 : Rat), 30, some (-1), none, false, ""⟩]
      ).oneDollarLoans.repaid +
      (calculateLoanMetrics 0
        [⟨"0xC", 1, some (1/2 : Rat), 30, some (-1), none, false, ""⟩]
      ).oneDollarLoans.inProgress <
      (calculateLoanMetrics 0
        [⟨"0xC", 1, some (1/2 : Rat), 30, some (-1), none, false, ""⟩]
      ).oneDollarLoans.total) := by
  constructor
  · intro today loans
    exact foldl_metricsStep_sum_le today loans { totalLoans := loans.length }
      (by simp) (by simp)
  · have hone : (calculateLoanMetrics 0
        [⟨"0xC", 1, some (1/2 : Rat), 30, some (-1), none, false, ""⟩]
      ).oneDollarLoans = tierStep false false false ({} : TierMetrics) := by
      show (metricsStep 0 { totalLoans := 1 } _).oneDollarLoans = _
      rw [metricsStep_oneDollarLoans, if_pos (by norm_num)]
      simp [hasDefaultDate, isMissingRepaidAmount, repaidGe, repaidLt,
        isDueDateInFuture]
      norm_num
    rw [hone]
    decide

/-- C2: Every active loan (not defaulted, no default date, parseable due
date not in the past, not fully repaid) lands in exactly the horizon buckets
of `{1, 5, 7, 10, 14, 30}` days whose threshold is at least its
days-until-due; each returned bucket is sorted ascending by due date. -/
theorem groupLoansByDueDate_cumulative_buckets :
    ∀ (today : Int) (loans : List LoanData) (l : LoanData) (d : Int),
      l ∈ loans → l.is_defaulted = false → hasDefaultDate l = false →
      l.loan_due_date = some d → today ≤ d →
      (isMissingRepaidAmount l || repaidLt l l.loan_amount) = true →
      (∀ g ∈ groupLoansByDueDate today loans,
        (l ∈ g.loans ↔ daysUntilDue today l ≤ g.days)) ∧
      (∀ g ∈ groupLoansByDueDate today loans,
        g.loans.Pairwise fun a b => dueKey a ≤ dueKey b) ∧
      (groupLoansByDueDate today loans).map DueDateGroup.days =
        [1, 5, 7, 10, 14, 30] := by
  intro today loans l d hmem hdef hdd hdue hle hrep
  have hact : activeFilter today l = true := by
    simp only [activeFilter, hdef, hdd, hdue, hrep, Bool.or_self, Bool.not_false,
      Bool.true_and, Bool.and_true]
    exact decide_eq_true hle
  refine ⟨?_, ?_, ?_⟩
  · intro g hg
    rw [groupLoansByDueDate_eq] at hg
    obtain ⟨g0, -, rfl⟩ := List.mem_map.mp hg
    show l ∈ sortByDue _ ↔ _
    rw [mem_sortByDue, List.mem_filter, List.mem_filter]
    constructor
    · intro h
      have hb := h.2
      simp only [bucketPred, Bool.and_eq_true, decide_eq_true_eq] at hb
      exact hb.2
    · intro h
      refine ⟨⟨hmem, hact⟩, ?_⟩
      simp only [bucketPred, hdue, Option.isSome_some, Bool.true_and,
        decide_eq_true_eq]
      exact h
  · intro g hg
    rw [groupLoansByDueDate_eq] at hg
    obtain ⟨g0, -, rfl⟩ := List.mem_map.mp hg
    exact pairwise_sortByDue _
  · rw [groupLoansByDueDate_eq]
    rfl

theorem getD_mem_of_lt {α : Type} {l : List α} {i : Nat} {d : α}
    (h : i < l.length) : l.getD i d ∈ l := by
  induction l generalizing i with
  | nil => simp at h
  | cons x xs ih =>
      cases i with
      | zero => simp [List.getD]
      | succ n =>
          simp only [List.getD, List.getElem?_cons_succ] at *
          exact List.mem_cons_of_mem x (ih (Nat.lt_of_succ_lt_succ h))

/-- Witness for C2: a single loan due in 3 days ends up in the 5-day bucket
(and, by the same theorem, in every bucket with threshold at least 3) but not
in the 1-day bucket. -/
theorem groupLoansByDueDate_cumulative_buckets_witness :
    (⟨"0xA", 1, none, 30, some 3, none, false, ""⟩ ∈
      ((groupLoansByDueDate 0
        [⟨"0xA", 1, none, 30, some 3, none, false, ""⟩]).getD 1 default).loans ↔
      daysUntilDue 0 ⟨"0xA", 1, none, 30, some 3, none, false, ""⟩ ≤
      ((groupLoansByDueDate 0
        [⟨"0xA", 1, none, 30, some 3, none, false, ""⟩]).getD 1 default).days) :=
  (groupLoansByDueDate_cumulative_buckets 0
      [⟨"0xA", 1, none, 30, some 3, none, false, ""⟩]
      ⟨"0xA", 1, none, 30, some 3, none, false, ""⟩ 3
      (List.mem_singleton.mpr rfl) rfl rfl rfl (by decide) (by decide)).1
    _ (getD_mem_of_lt (by rw [groupLoansByDueDate_eq]; simp [initialDueGroups]))

/-- C4: A loan that is not defaulted, has no default date, is not fully
repaid, and whose due date parses strictly before today is returned by
`getExpiredLoans` and appears in none of the forward-looking buckets of
`groupLoansByDueDate`. -/
theorem getExpiredLoans_disjoint_from_buckets :
    ∀ (today : Int) (loans : List LoanData) (l : LoanData) (d : Int),
      l ∈ loans → l.is_defaulted = false → l.default_loan_date = none →
      l.loan_due_date = some d → d < today →
      (isMissingRepaidAmount l || repaidLt l l.loan_amount) = true →
      l ∈ getExpiredLoans today loans ∧
      ∀ g ∈ groupLoansByDueDate today loans, l ∉ g.loans := by
  intro today loans l d hmem hdef hdd0 hdue hlt hrep
  have hdd : hasDefaultDate l = false := by simp [hasDefaultDate, hdd0]
  constructor
  · unfold getExpiredLoans
    rw [mem_sortByDue, List.mem_filter]
    refine ⟨hmem, ?_⟩
    simp only [expiredFilter, hdef, hdd, hdue, hrep, Bool.or_self, Bool.not_false,
      Bool.true_and, Bool.and_true]
    exact decide_eq_true hlt
  · intro g hg hin
    rw [groupLoansByDueDate_eq] at hg
    obtain ⟨g0, -, rfl⟩ := List.mem_map.mp hg
    have hin2 := mem_sortByDue.mp hin
    rw [List.mem_filter, List.mem_filter] at hin2
    have hact := hin2.1.2
    simp only [activeFilter, hdef, hdd, hdue, Bool.or_self, Bool.not_false,
      Bool.true_and, Bool.and_eq_true, decide_eq_true_eq] at hact
    omega

/-! ## Claims about the header resolver -/

theorem find?_take {α : Type} (L : List α) (p : α → Bool) :
    ∀ (i : Nat) (hi : i < L.length),
      (∀ a ∈ L.take i, p a = false) → p (L.get ⟨i, hi⟩) = true →
      L.find? p = some (L.get ⟨i, hi⟩) := by
  induction L with
  | nil => intro i hi; simp at hi
  | cons x xs ih =>
      intro i hi hearlier hp
      cases i with
      | zero => simpa using List.find?_cons_of_pos xs hp
      | succ n =>
          have hx : p x = false := hearlier x (by simp [List.take_succ_cons])
          rw [List.find?, hx]
          exact ih n (Nat.lt_of_succ_lt_succ hi)
            (fun a ha => hearlier a (by simp [List.take_succ_cons, ha]))
            hp

/-- C7 counterexample: The claim fails: `loan_defaulted` is listed as a
synonym of `is_defaulted`, yet the resolver maps it to `default_loan_date`,
because the same spelling also appears in `default_loan_date`'s (earlier)
synonym list and the first match wins. -/
theorem findStandardFieldName_shadowed_synonym :
    ("is_defaulted",
      ["is_defaulted", "defaulted", "is defaulted", "default", "loan_defaulted",
       "has_defaulted", "in_default"]) ∈ COLUMN_MAPPINGS ∧
    "loan_defaulted" ∈
      ["is_defaulted", "defaulted", "is defaulted", "default", "loan_defaulted",
       "has_defaulted", "in_default"] ∧
    findStandardFieldName "loan_defaulted" = some "default_loan_date" ∧
    some "default_loan_date" ≠ some "is_defaulted" := by
  refine ⟨by decide, by decide, ?_, by decide⟩
  decide

/-- C7 amended: For every canonical field, every listed synonym whose
normalisation does not also occur in an *earlier* field's synonym list, and
every spelling with the same normalisation (hence any mix of case,
surrounding whitespace and space/hyphen/underscore separators), the resolver
maps that spelling to that canonical field.  (The one shadowed pair —
`loan_defaulted` under `is_defaulted` — is exactly the exception the
counterexample exhibits.) -/
theorem findStandardFieldName_maps_unshadowed_synonyms :
    ∀ (i : Nat) (hi : i < COLUMN_MAPPINGS.length) (syn s : String),
      syn ∈ (COLUMN_MAPPINGS.get ⟨i, hi⟩).2 →
      (∀ p ∈ COLUMN_MAPPINGS.take i,
        normalizeHeaderName syn ∉ p.2.map normalizeHeaderName) →
      normalizeHeaderName s = normalizeHeaderName syn →
      findStandardFieldName s = some (COLUMN_MAPPINGS.get ⟨i, hi⟩).1 := by
  intro i hi syn s hsyn hearlier hnorm
  have hearly : ∀ p ∈ COLUMN_MAPPINGS.take i,
      ((p.2.map normalizeHeaderName).contains (normalizeHeaderName s)) = false := by
    intro p hp
    rw [Bool.eq_false_iff]
    intro hc
    refine hearlier p hp ?_
    have := List.mem_of_elem_eq_true hc
    rwa [hnorm] at this
  have hhit : (((COLUMN_MAPPINGS.get ⟨i, hi⟩).2.map normalizeHeaderName).contains
      (normalizeHeaderName s)) = true := by
    rw [hnorm]
    exact List.elem_eq_true_of_mem (List.mem_map_of_mem normalizeHeaderName hsyn)
  simp only [findStandardFieldName]
  rw [find?_take COLUMN_MAPPINGS _ i hi hearly hhit]
  rfl

/-- Witness for the amended C7: the mixed-case, hyphen-and-whitespace
spelling `" Wallet-ADDRESS "` of the `user_wallet` synonym `wallet address`
resolves to `user_wallet`. -/
theorem findStandardFieldName_maps_unshadowed_synonyms_witness :
    findStandardFieldName " Wallet-ADDRESS " = some "user_wallet" :=
  findStandardFieldName_maps_unshadowed_synonyms 0 (by decide)
    "wallet address" " Wallet-ADDRESS " (by decide) (by simp) (by decide)

/-! ## Claims about the row normalizer -/

theorem setField_user_wallet_of_ne (j : JsLoan) (f v : String)
    (h : f ≠ "user_wallet") : (setField j f v).user_wallet = j.user_wallet := by
  unfold setField
  split_ifs <;> first | rfl | exact absurd (by assumption) h

theorem mapCells_user_wallet_shape (hm : List (Option String))
    (cells : List String) :
    (mapCells hm cells).user_wallet = JsValue.undef ∨
      ∃ s, (mapCells hm cells).user_wallet = JsValue.str s := by
  unfold mapCells
  generalize cells.enum = ps
  induction ps using List.reverseRecOn with
  | nil => exact Or.inl rfl
  | append_singleton ps p ih =>
      rw [List.foldl_append, List.foldl_cons, List.foldl_nil]
      cases hmf : hm.getD p.1 none with
      | none => exact ih
      | some f =>
          by_cases hf : f = "user_wallet"
          · subst hf
            exact Or.inr ⟨p.2, by simp [setField]⟩
          · rw [setField_user_wallet_of_ne _ _ _ hf]
            exact ih

theorem fillRequiredDefaults_user_wallet (j : JsLoan) :
    (fillRequiredDefaults j).user_wallet = j.user_wallet := by
  simp only [fillRequiredDefaults]
  split_ifs <;> rfl

theorem getD_ne_of_not_contains {hm : List (Option String)} {f : String}
    (h : hm.contains (some f) = false) : ∀ i, hm.getD i none ≠ some f := by
  intro i heq
  have hmem : some f ∈ hm := by
    by_cases hi : i < hm.length
    · rw [List.getD_eq_getElem hm none hi] at heq
      exact heq ▸ List.getElem_mem hi
    · rw [List.getD_eq_default hm none (Nat.le_of_not_lt hi)] at heq
      exact absurd heq (by simp)
  have h2 : hm.contains (some f) = true := List.elem_eq_true_of_mem hmem
  rw [h2] at h
  exact Bool.noConfusion h

set_option maxHeartbeats 1000000 in
theorem setField_loan_amount_of_ne (j : JsLoan) (f v : String)
    (h : f ≠ "loan_amount") : (setField j f v).loan_amount = j.loan_amount := by
  unfold setField
  split_ifs <;> first | rfl | exact absurd (by assumption) h

set_option maxHeartbeats 1000000 in
theorem setField_loan_term_of_ne (j : JsLoan) (f v : String)
    (h : f ≠ "loan_term") : (setField j f v).loan_term = j.loan_term := by
  unfold setField
  split_ifs <;> first | rfl | exact absurd (by assumption) h

set_option maxHeartbeats 1000000 in
theorem setField_loan_due_date_of_ne (j : JsLoan) (f v : String)
    (h : f ≠ "loan_due_date") : (setField j f v).loan_due_date = j.loan_due_date := by
  unfold setField
  split_ifs <;> first | rfl | exact absurd (by assumption) h

theorem mapCells_loan_amount_undef {hm : List (Option String)}
    (cells : List String) (h : ∀ i, hm.getD i none ≠ some "loan_amount") :
    (mapCells hm cells).loan_amount = JsValue.undef := by
  unfold mapCells
  generalize cells.enum = ps
  induction ps using List.reverseRecOn with
  | nil => rfl
  | append_singleton ps p ih =>
      rw [List.foldl_append, List.foldl_cons, List.foldl_nil]
      cases hmf : hm.getD p.1 none with
      | none => exact ih
      | some f =>
          rw [setField_loan_amount_of_ne _ _ _ (fun hf => h p.1 (hf ▸ hmf))]
          exact ih

theorem mapCells_loan_term_undef {hm : List (Option String)}
    (cells : List String) (h : ∀ i, hm.getD i none ≠ some "loan_term") :
    (mapCells hm cells).loan_term = JsValue.undef := by
  unfold mapCells
  generalize cells.enum = ps
  induction ps using List.reverseRecOn with
  | nil => rfl
  | append_singleton ps p ih =>
      rw [List.foldl_append, List.foldl_cons, List.foldl_nil]
      cases hmf : hm.getD p.1 none with
      | none => exact ih
      | some f =>
          rw [setField_loan_term_of_ne _ _ _ (fun hf => h p.1 (hf ▸ hmf))]
          exact ih

theorem mapCells_loan_due_date_undef {hm : List (Option String)}
    (cells : List String) (h : ∀ i, hm.getD i none ≠ some "loan_due_date") :
    (mapCells hm cells).loan_due_date = JsValue.undef := by
  unfold mapCells
  generalize cells.enum = ps
  induction ps using List.reverseRecOn with
  | nil => rfl
  | append_singleton ps p ih =>
      rw [List.foldl_append, List.foldl_cons, List.foldl_nil]
      cases hmf : hm.getD p.1 none with
      | none => exact ih
      | some f =>
          rw [setField_loan_due_date_of_ne _ _ _ (fun hf => h p.1 (hf ▸ hmf))]
          exact ih

theorem fillRequiredDefaults_loan_amount (j : JsLoan) :
    (fillRequiredDefaults j).loan_amount =
      if j.loan_amount.falsy then JsValue.num 0 else j.loan_amount := by
  simp only [fillRequiredDefaults]
  split_ifs <;> rfl

theorem fillRequiredDefaults_loan_term (j : JsLoan) :
    (fillRequiredDefaults j).loan_term =
      if j.loan_term.falsy then JsValue.num 0 else j.loan_term := by
  simp only [fillRequiredDefaults]
  split_ifs <;> rfl

theorem fillRequiredDefaults_loan_due_date (j : JsLoan) :
    (fillRequiredDefaults j).loan_due_date =
      if j.loan_due_date.falsy then JsValue.str farFutureDueDate
      else j.loan_due_date := by
  simp only [fillRequiredDefaults]
  split_ifs <;> rfl

theorem normalizeRow_eq_some {hm : List (Option String)} {cells : List String}
    {r : LoanRow} (h : normalizeRow hm cells = some r) :
    r = finalizeRow (fillRequiredDefaults (mapCells hm cells)) := by
  simp only [normalizeRow] at h
  split_ifs at h
  exact (Option.some_injective _ h).symm

theorem filter_length_eq_all {α : Type} (l : List α) (p : α → Bool)
    (h : (l.filter p).length = l.length) : ∀ a ∈ l, p a = true := by
  induction l with
  | nil => simp
  | cons x xs ih =>
      rw [List.filter_cons] at h
      by_cases hx : p x
      · intro a ha
        rcases List.mem_cons.mp ha with rfl | ha2
        · exact hx
        · exact ih (by simpa [hx] using h) a ha2
      · exfalso
        simp only [hx, if_neg] at h
        have := List.length_filter_le p xs
        simp at h
        omega

theorem exists_of_filterMap_ne_nil {α β : Type} {l : List α} {f : α → Option β}
    (h : l.filterMap f ≠ []) : ∃ a ∈ l, ∃ b, f a = some b := by
  by_contra hc
  push_neg at hc
  refine h (List.filterMap_eq_nil_iff.mpr fun a ha => ?_)
  cases hfa : f a with
  | none => rfl
  | some b => exact absurd hfa (hc a ha b)

theorem mapCells_user_wallet_undef {hm : List (Option String)}
    (cells : List String) (h : ∀ i, hm.getD i none ≠ some "user_wallet") :
    (mapCells hm cells).user_wallet = JsValue.undef := by
  unfold mapCells
  generalize cells.enum = ps
  induction ps using List.reverseRecOn with
  | nil => rfl
  | append_singleton ps p ih =>
      rw [List.foldl_append, List.foldl_cons, List.foldl_nil]
      cases hmf : hm.getD p.1 none with
      | none => exact ih
      | some f =>
          rw [setField_user_wallet_of_ne _ _ _ (fun hf => h p.1 (hf ▸ hmf))]
          exact ih

/-- A row can only be accepted when some column resolved to `user_wallet`. -/
theorem contains_wallet_of_normalizeRow_some {hm : List (Option String)}
    {cells : List String} {r : LoanRow} (h : normalizeRow hm cells = some r) :
    hm.contains (some "user_wallet") = true := by
  by_contra hc
  have hc2 : hm.contains (some "user_wallet") = false :=
    Bool.eq_false_iff.mpr hc
  have hu := mapCells_user_wallet_undef cells (getD_ne_of_not_contains hc2)
  simp only [normalizeRow] at h
  rw [fillRequiredDefaults_user_wallet, hu] at h
  simp [JsValue.falsy] at h

/-- Closed form of the row loop's final state: accepted records in file
order, reject and accept counters. -/
theorem processRows_fst (hm : List (Option String)) (totalLines : Nat) :
    ∀ (ls : List String) (st : RowState),
      (processRows hm totalLines ls st).1 =
        ⟨st.loans ++ validRecords hm ls,
         st.invalidRows + rejectedCount hm ls,
         st.validRows + (validRecords hm ls).length⟩ := by
  intro ls
  induction ls with
  | nil => intro st; simp [processRows, validRecords, rejectedCount]
  | cons line rest ih =>
      intro st
      rw [processRows]
      by_cases hb : isBlankLine line
      · rw [if_pos hb, ih]
        simp [validRecords, rejectedCount, hb]
      · rw [if_neg hb]
        cases hn : normalizeRow hm (splitCommaTrim line) with
        | none =>
            rw [ih]
            simp only [validRecords, rejectedCount, List.filterMap_cons,
              List.filter_cons, hb, hn]
            simp [validRecords, rejectedCount]
            omega
        | some r =>
            simp only
            rw [ih]
            simp only [validRecords, rejectedCount, List.filterMap_cons,
              List.filter_cons, hb, hn]
            simp [validRecords, rejectedCount]
            omega

/-- For non-empty input with at least two lines, `parseCSVText` reduces to
the header-resolution branch. -/
theorem parseCSVText_branch (t : String) (h1 : t ≠ "")
    (h2 : 2 ≤ (splitLines t).length) :
    parseCSVText t =
      (let hm := headerMapOf ((splitLines t).headD "")
       let missing := missingRequired hm
       if missing.length = requiredFields.length then
         ([10], [], .error (allMissingError hm))
       else
         let hw := if missing.length > 0 then [someMissingWarning missing] else []
         let res := rowPhase hm ((splitLines t).length - 1) ((splitLines t).drop 1)
         (res.1, hw ++ res.2.1, res.2.2)) := by
  simp only [parseCSVText]
  rw [if_neg h1, if_neg (Nat.not_lt.mpr h2)]

/-- C5: A header row matching none of the four required canonical fields
is fatal before any data row is considered (the error names the required
fields and the fields found, and depends only on the header line); a header
row matching some but not all required fields proceeds to row processing
with a warning, and each accepted row fills the missing required fields'
defaults: `0` for `loan_amount`/`loan_term` and the far-future sentinel for
`loan_due_date`. -/
theorem parseCSV_required_header_policy :
    (∀ csvText : String, csvText ≠ "" → 2 ≤ (splitLines csvText).length →
      (missingRequired (headerMapOf ((splitLines csvText).headD ""))).length =
        requiredFields.length →
      parseCSVText csvText =
        ([10], [],
          .error (allMissingError (headerMapOf ((splitLines csvText).headD ""))))) ∧
    (∀ t1 t2 : String, t1 ≠ "" → t2 ≠ "" →
      2 ≤ (splitLines t1).length → 2 ≤ (splitLines t2).length →
      (splitLines t1).headD "" = (splitLines t2).headD "" →
      (missingRequired (headerMapOf ((splitLines t1).headD ""))).length =
        requiredFields.length →
      parseCSVText t1 = parseCSVText t2) ∧
    (∀ csvText : String, csvText ≠ "" → 2 ≤ (splitLines csvText).length →
      0 < (missingRequired (headerMapOf ((splitLines csvText).headD ""))).length →
      (missingRequired (headerMapOf ((splitLines csvText).headD ""))).length <
        requiredFields.length →
      (parseCSVText csvText).2.2 =
        (rowPhase (headerMapOf ((splitLines csvText).headD ""))
          ((splitLines csvText).length - 1) ((splitLines csvText).drop 1)).2.2 ∧
      someMissingWarning
          (missingRequired (headerMapOf ((splitLines csvText).headD ""))) ∈
        (parseCSVText csvText).2.1) ∧
    (∀ (hm : List (Option String)) (cells : List String) (r : LoanRow),
      normalizeRow hm cells = some r →
      (hm.contains (some "loan_amount") = false → r.loan_amount = 0) ∧
      (hm.contains (some "loan_term") = false → r.loan_term = 0) ∧
      (hm.contains (some "loan_due_date") = false →
        r.loan_due_date = farFutureDueDate)) := by
  have hbranch := parseCSVText_branch
  refine ⟨?_, ?_, ?_, ?_⟩
  · intro t h1 h2 hall
    rw [hbranch t h1 h2]
    simp only
    rw [if_pos hall]
  · intro t1 t2 h1 h2 hl1 hl2 hhead hall
    have e1 := hbranch t1 h1 hl1
    have e2 := hbranch t2 h2 hl2
    rw [e1]
    simp only
    rw [if_pos hall]
    rw [e2]
    simp only
    rw [hhead] at hall
    rw [if_pos hall, ← hhead]
  · intro t h1 h2 hpos hlt
    rw [hbranch t h1 h2]
    simp only
    rw [if_neg (Nat.ne_of_lt hlt)]
    exact ⟨rfl, by rw [if_pos hpos]; exact List.mem_append_left _ (by simp)⟩
  · intro hm cells r hr
    rw [normalizeRow_eq_some hr]
    refine ⟨?_, ?_, ?_⟩
    · intro hc
      show jsToNum (fillRequiredDefaults (mapCells hm cells)).loan_amount = 0
      rw [fillRequiredDefaults_loan_amount,
        mapCells_loan_amount_undef cells (getD_ne_of_not_contains hc)]
      rfl
    · intro hc
      show jsToNum (fillRequiredDefaults (mapCells hm cells)).loan_term = 0
      rw [fillRequiredDefaults_loan_term,
        mapCells_loan_term_undef cells (getD_ne_of_not_contains hc)]
      rfl
    · intro hc
      show jsToStr (fillRequiredDefaults (mapCells hm cells)).loan_due_date =
        farFutureDueDate
      rw [fillRequiredDefaults_loan_due_date,
        mapCells_loan_due_date_undef cells (getD_ne_of_not_contains hc)]
      rfl

/-- Witness for C5: the header `wallet,amount` (two of the four required
fields present, two missing) proceeds into the row phase with the degraded
warning, and the accepted row for wallet `0xA` gets `loan_term = 0` and the
sentinel due date. -/
theorem parseCSV_required_header_policy_witness :
    ((parseCSVText "wallet,amount\x0A0xA,x").2.2 =
      (rowPhase (headerMapOf ((splitLines "wallet,amount\x0A0xA,x").headD ""))
        ((splitLines "wallet,amount\x0A0xA,x").length - 1)
        ((splitLines "wallet,amount\x0A0xA,x").drop 1)).2.2 ∧
      someMissingWarning
          (missingRequired
            (headerMapOf ((splitLines "wallet,amount\x0A0xA,x").headD ""))) ∈
        (parseCSVText "wallet,amount\x0A0xA,x").2.1) :=
  parseCSV_required_header_policy.2.2.1 "wallet,amount\x0A0xA,x"
    (by decide) (by decide) (by decide) (by decide)

/-- C3: Whenever the data rows split into at least one accepted row and
at least one rejected row, `parseCSV` does not fail: it resolves with exactly
the accepted records (rejected rows skipped and counted) and surfaces the
non-fatal warning carrying the reject count. -/
theorem parseCSV_partial_tolerance :
    ∀ t : String,
      validRecords (headerMapOf ((splitLines t).headD ""))
          ((splitLines t).drop 1) ≠ [] →
      1 ≤ rejectedCount (headerMapOf ((splitLines t).headD ""))
          ((splitLines t).drop 1) →
      (parseCSVText t).2.2 =
        .ok ⟨validRecords (headerMapOf ((splitLines t).headD ""))
              ((splitLines t).drop 1),
             rejectedCount (headerMapOf ((splitLines t).headD ""))
              ((splitLines t).drop 1),
             (validRecords (headerMapOf ((splitLines t).headD ""))
              ((splitLines t).drop 1)).length⟩ ∧
      rowWarningMsg (rejectedCount (headerMapOf ((splitLines t).headD ""))
          ((splitLines t).drop 1)) ∈ (parseCSVText t).2.1 := by
  intro t hval hbad
  have hne : t ≠ "" := by
    intro h0
    subst h0
    exact hval (by decide)
  have hlen : 2 ≤ (splitLines t).length := by
    by_contra hc
    push_neg at hc
    have hdl : (splitLines t).drop 1 = [] := List.drop_eq_nil_of_le (by omega)
    rw [hdl] at hval
    exact hval rfl
  obtain ⟨line, hline, r, hr⟩ :=
    exists_of_filterMap_ne_nil (f := fun line =>
      if isBlankLine line then none
      else normalizeRow (headerMapOf ((splitLines t).headD ""))
        (splitCommaTrim line)) hval
  have hr2 : normalizeRow (headerMapOf ((splitLines t).headD ""))
      (splitCommaTrim line) = some r := by
    by_cases hb : isBlankLine line
    · rw [if_pos hb] at hr
      exact absurd hr (by simp)
    · rwa [if_neg hb] at hr
  have hcont := contains_wallet_of_normalizeRow_some hr2
  have hmiss : (missingRequired (headerMapOf ((splitLines t).headD ""))).length ≠
      requiredFields.length := by
    intro heq
    have hall := filter_length_eq_all requiredFields _ heq
    have hw := hall "user_wallet" (by decide)
    rw [hcont] at hw
    simp at hw
  rw [parseCSVText_branch t hne hlen]
  simp only
  rw [if_neg hmiss]
  simp only [rowPhase]
  rw [processRows_fst]
  simp only [List.nil_append, Nat.zero_add]
  have hie : (validRecords (headerMapOf ((splitLines t).headD ""))
      ((splitLines t).drop 1)).isEmpty = false := by
    simpa using hval
  rw [hie]
  simp only [Bool.false_eq_true, if_false]
  rw [if_pos (show 0 < rejectedCount (headerMapOf ((splitLines t).headD ""))
    ((splitLines t).drop 1) from hbad)]
  exact ⟨by trivial, List.mem_append_right _ (by simp)⟩

/-- Witness for C3: a four-column file with three data rows, one lacking the
wallet, parses to two records with one counted, warned-about rejection. -/
theorem parseCSV_partial_tolerance_witness :
    (parseCSVText
        "user_wallet,loan_amount,loan_term,loan_due_date\x0A0xA,x,x,d\x0A,x,x,d\x0A0xB,x,x,d").2.2 =
      .ok ⟨validRecords
            (headerMapOf ((splitLines
              "user_wallet,loan_amount,loan_term,loan_due_date\x0A0xA,x,x,d\x0A,x,x,d\x0A0xB,x,x,d").headD ""))
            ((splitLines
              "user_wallet,loan_amount,loan_term,loan_due_date\x0A0xA,x,x,d\x0A,x,x,d\x0A0xB,x,x,d").drop 1),
           rejectedCount
            (headerMapOf ((splitLines
              "user_wallet,loan_amount,loan_term,loan_due_date\x0A0xA,x,x,d\x0A,x,x,d\x0A0xB,x,x,d").headD ""))
            ((splitLines
              "user_wallet,loan_amount,loan_term,loan_due_date\x0A0xA,x,x,d\x0A,x,x,d\x0A0xB,x,x,d").drop 1),
           (validRecords
            (headerMapOf ((splitLines
              "user_wallet,loan_amount,loan_term,loan_due_date\x0A0xA,x,x,d\x0A,x,x,d\x0A0xB,x,x,d").headD ""))
            ((splitLines
              "user_wallet,loan_amount,loan_term,loan_due_date\x0A0xA,x,x,d\x0A,x,x,d\x0A0xB,x,x,d").drop 1)).length⟩ ∧
    rowWarningMsg
        (rejectedCount
          (headerMapOf ((splitLines
            "user_wallet,loan_amount,loan_term,loan_due_date\x0A0xA,x,x,d\x0A,x,x,d\x0A0xB,x,x,d").headD ""))
          ((splitLines
            "user_wallet,loan_amount,loan_term,loan_due_date\x0A0xA,x,x,d\x0A,x,x,d\x0A0xB,x,x,d").drop 1)) ∈
      (parseCSVText
        "user_wallet,loan_amount,loan_term,loan_due_date\x0A0xA,x,x,d\x0A,x,x,d\x0A0xB,x,x,d").2.1 :=
  parseCSV_partial_tolerance
    "user_wallet,loan_amount,loan_term,loan_due_date\x0A0xA,x,x,d\x0A,x,x,d\x0A0xB,x,x,d"
    (by decide) (by decide)

/-- C6: A data row is rejected by the row normalizer iff its resolved
`user_wallet` is empty after header mapping; other anomalies are silently
coerced: an unparseable numeric cell yields `0`, an empty
`loan_repaid_amount` yields `null`, an `is_defaulted` spelling other than
case-insensitive `"true"` yields `false`, and an empty date cell yields
`null`. -/
theorem normalizeRow_rejects_iff_wallet_empty :
    (∀ (hm : List (Option String)) (cells : List String),
      (normalizeRow hm cells = none ↔
        jsToStr (mapCells hm cells).user_wallet = "")) ∧
    (∀ v : String, jsParseFloat v = none → parseFloatOr0 v = 0) ∧
    repaidCell "" = JsValue.null ∧
    (∀ j : JsLoan, j.loan_repaid_amount = JsValue.null →
      (finalizeRow j).loan_repaid_amount = none) ∧
    (∀ (j : JsLoan) (v : String), lowerStr v ≠ "true" →
      (setField j "is_defaulted" v).is_defaulted = JsValue.bool false) ∧
    dateCell "" = JsValue.null ∧
    (∀ j : JsLoan, j.default_loan_date = JsValue.null →
      (finalizeRow j).default_loan_date = none) := by
  refine ⟨?_, ?_, ?_, ?_, ?_, ?_, ?_⟩
  · intro hm cells
    simp only [normalizeRow]
    rw [fillRequiredDefaults_user_wallet]
    rcases mapCells_user_wallet_shape hm cells with hw | ⟨s, hw⟩
    · rw [hw]
      simp [JsValue.falsy, jsToStr]
    · rw [hw]
      by_cases hs : s = ""
      · subst hs
        simp [JsValue.falsy, jsToStr]
      · simp [JsValue.falsy, jsToStr, hs]
  · intro v h
    simp [parseFloatOr0, h]
  · rfl
  · intro j h
    simp [finalizeRow, h, JsValue.falsy]
  · intro j v h
    unfold setField
    rw [if_neg (by decide), if_neg (by decide), if_neg (by decide), if_pos rfl]
    show JsValue.bool (lowerStr v == "true") = JsValue.bool false
    rw [beq_eq_false_iff_ne.mpr h]
  · rfl
  · intro j h
    simp [finalizeRow, h, jsToStrOpt]

/-- Witness for C6: a one-column row whose only (wallet) cell is empty is
rejected, and the unparseable numeric cell `"abc"` is coerced to `0`. -/
theorem normalizeRow_rejects_iff_wallet_empty_witness :
    (normalizeRow [some "user_wallet"] [""] = none ↔
      jsToStr (mapCells [some "user_wallet"] [""]).user_wallet = "") ∧
    parseFloatOr0 "abc" = 0 :=
  ⟨normalizeRow_rejects_iff_wallet_empty.1 [some "user_wallet"] [""],
   normalizeRow_rejects_iff_wallet_empty.2.1 "abc" (by decide)⟩

/-! ## Claims about the persistence hand-off -/

theorem chunk100_join_fuel :
    ∀ (n : Nat) (l : List DbLoan), l.length ≤ n → (chunk100 l).join = l := by
  intro n
  induction n with
  | zero =>
      intro l hl
      have : l = [] := List.eq_nil_of_length_eq_zero (Nat.le_zero.mp hl)
      subst this
      rw [chunk100]
      rfl
  | succ n ih =>
      intro l hl
      rw [chunk100]
      by_cases he : l.isEmpty
      · rw [if_pos he]
        rw [List.isEmpty_iff] at he
        simp [he]
      · rw [if_neg he]
        have hne : l ≠ [] := by simpa using he
        have hpos : 0 < l.length := List.length_pos.mpr hne
        have hrec := ih (l.drop 100) (by rw [List.length_drop]; omega)
        calc (List.take 100 l :: chunk100 (l.drop 100)).join
            = List.take 100 l ++ (chunk100 (l.drop 100)).join := by simp
          _ = List.take 100 l ++ l.drop 100 := by rw [hrec]
          _ = l := List.take_append_drop 100 l

theorem chunk100_join (l : List DbLoan) : (chunk100 l).join = l :=
  chunk100_join_fuel l.length l (le_refl _)

theorem chunk100_batch_le :
    ∀ (n : Nat) (l : List DbLoan), l.length ≤ n →
      ∀ b ∈ chunk100 l, b.length ≤ 100 := by
  intro n
  induction n with
  | zero =>
      intro l hl b hb
      have : l = [] := List.eq_nil_of_length_eq_zero (Nat.le_zero.mp hl)
      subst this
      rw [chunk100] at hb
      simp at hb
  | succ n ih =>
      intro l hl b hb
      rw [chunk100] at hb
      by_cases he : l.isEmpty
      · rw [if_pos he] at hb
        simp at hb
      · rw [if_neg he] at hb
        have hne : l ≠ [] := by simpa using he
        have hpos : 0 < l.length := List.length_pos.mpr hne
        rcases List.mem_cons.mp hb with rfl | hb2
        · simpa using List.length_take_le 100 l
        · exact ih (l.drop 100) (by rw [List.length_drop]; omega) b hb2

theorem getLast?_cons_of_ne_nil {α : Type} (a : α) {l : List α} (h : l ≠ []) :
    (a :: l).getLast? = l.getLast? := by
  cases l with
  | nil => exact absurd rfl h
  | cons x xs => rfl

theorem runBatches_take (err : List DbLoan → Option String) (total : Nat) :
    ∀ (bs : List (List DbLoan)) (pc : Nat),
      (runBatches err total pc bs).1.map UpsertOp.rows =
        bs.take (runBatches err total pc bs).1.length := by
  intro bs
  induction bs with
  | nil => intro pc; rfl
  | cons b rest ih =>
      intro pc
      rw [runBatches]
      cases herr : err b with
      | some e => rfl
      | none =>
          simp only [List.map_cons, List.length_cons, List.take_succ_cons]
          rw [ih (pc + b.length)]

theorem runBatches_key (err : List DbLoan → Option String) (total : Nat) :
    ∀ (bs : List (List DbLoan)) (pc : Nat),
      ∀ op ∈ (runBatches err total pc bs).1, op.onConflict = upsertKey := by
  intro bs
  induction bs with
  | nil => intro pc op hop; simp [runBatches] at hop
  | cons b rest ih =>
      intro pc op hop
      rw [runBatches] at hop
      cases herr : err b with
      | some e =>
          rw [herr] at hop
          simp at hop
          rw [hop]
      | none =>
          rw [herr] at hop
          simp only [List.mem_cons] at hop
          rcases hop with rfl | hop2
          · rfl
          · exact ih (pc + b.length) op hop2

theorem runBatches_complete (err : List DbLoan → Option String) (total : Nat) :
    ∀ (bs : List (List DbLoan)) (pc : Nat),
      (runBatches err total pc bs).2.1 = none →
      (runBatches err total pc bs).1.map UpsertOp.rows = bs := by
  intro bs
  induction bs with
  | nil => intro pc _; rfl
  | cons b rest ih =>
      intro pc hnone
      rw [runBatches] at hnone ⊢
      cases herr : err b with
      | some e => rw [herr] at hnone; exact absurd hnone (by simp)
      | none =>
          rw [herr] at hnone
          simp only [List.map_cons]
          rw [ih (pc + b.length) hnone]

theorem runBatches_halt (err : List DbLoan → Option String) (total : Nat) :
    ∀ (bs : List (List DbLoan)) (pc : Nat) (e : String),
      (runBatches err total pc bs).2.1 = some e →
      (runBatches err total pc bs).1 ≠ [] ∧
      (∀ op ∈ (runBatches err total pc bs).1.dropLast, err op.rows = none) ∧
      ∃ b, (runBatches err total pc bs).1.getLast? = some ⟨b, upsertKey⟩ ∧
        err b = some e := by
  intro bs
  induction bs with
  | nil => intro pc e he; exact absurd he (by simp [runBatches])
  | cons b rest ih =>
      intro pc e he
      rw [runBatches] at he ⊢
      cases herr : err b with
      | some e2 =>
          rw [herr] at he
          simp only at he
          have he2 : e2 = e := by
            simpa using he
          subst he2
          exact ⟨by simp, by simp, b, by simp, herr⟩
      | none =>
          simp only [herr] at he ⊢
          obtain ⟨hne, hearlier, bb, hlast, hberr⟩ := ih (pc + b.length) e he
          refine ⟨by simp, ?_, bb, ?_, hberr⟩
          · intro op hop
            rw [List.dropLast_cons_of_ne_nil hne] at hop
            rcases List.mem_cons.mp hop with rfl | hop2
            · exact herr
            · exact hearlier op hop2
          · rw [getLast?_cons_of_ne_nil _ hne]
            exact hlast

/-- C9: `storeLoansInDatabase` partitions the mapped records into
consecutive batches of at most 100 preserving input order, issues them
strictly sequentially in increasing batch order as upserts keyed on
`(user_wallet, loan_amount, loan_due_date)`, and a failing batch stops all
subsequent batches, returning that batch's error. -/
theorem storeLoansInDatabase_sequential_batches :
    ∀ (upsertError : List DbLoan → Option String) (fid : String)
      (loans : List LoanRow),
      ((chunk100 (loans.map (toDbLoan fid))).join = loans.map (toDbLoan fid) ∧
        ∀ b ∈ chunk100 (loans.map (toDbLoan fid)), b.length ≤ 100) ∧
      ((storeLoansInDatabase upsertError fid loans).1.map UpsertOp.rows =
        (chunk100 (loans.map (toDbLoan fid))).take
          (storeLoansInDatabase upsertError fid loans).1.length) ∧
      (∀ op ∈ (storeLoansInDatabase upsertError fid loans).1,
        op.onConflict = upsertKey) ∧
      ((storeLoansInDatabase upsertError fid loans).2.1 = none →
        (storeLoansInDatabase upsertError fid loans).1.map UpsertOp.rows =
          chunk100 (loans.map (toDbLoan fid))) ∧
      (∀ e, (storeLoansInDatabase upsertError fid loans).2.1 = some e →
        (storeLoansInDatabase upsertError fid loans).1 ≠ [] ∧
        (∀ op ∈ (storeLoansInDatabase upsertError fid loans).1.dropLast,
          upsertError op.rows = none) ∧
        ∃ b, (storeLoansInDatabase upsertError fid loans).1.getLast? =
            some ⟨b, upsertKey⟩ ∧ upsertError b = some e) ∧
      (∀ l : LoanRow, (toDbLoan fid l).user_wallet = l.user_wallet ∧
        (toDbLoan fid l).loan_amount = l.loan_amount ∧
        (toDbLoan fid l).loan_due_date = l.loan_due_date) := by
  intro err fid loans
  refine ⟨⟨chunk100_join _, chunk100_batch_le _ _ (le_refl _)⟩,
    runBatches_take err _ _ 0, runBatches_key err _ _ 0,
    runBatches_complete err _ _ 0, fun e => runBatches_halt err _ _ 0 e,
    fun l => ⟨rfl, rfl, rfl⟩⟩

/-- Witness for C9: one record, no backend error: the single batch is issued
in full. -/
theorem storeLoansInDatabase_sequential_batches_witness :
    (storeLoansInDatabase (fun _ => none) "f"
        [⟨"0xA", 0, 0, none, false, "d", none, none, none, ""⟩]).1.map
        UpsertOp.rows =
      chunk100 ([⟨"0xA", 0, 0, none, false, "d", none, none, none, ""⟩].map
        (toDbLoan "f")) :=
  (storeLoansInDatabase_sequential_batches (fun _ => none) "f"
    [⟨"0xA", 0, 0, none, false, "d", none, none, none, ""⟩]).2.2.2.1
    (by simp [storeLoansInDatabase, chunk100, runBatches])

/-! ## Claims about progress reporting -/

theorem rowPercent_mono (T : Nat) {p q : Nat} (h : p ≤ q) :
    rowPercent T p ≤ rowPercent T q := by
  unfold rowPercent
  exact min_le_min
    (Nat.add_le_add_left (Nat.div_le_div_right (Nat.mul_le_mul_right 30 h)) 20)
    (le_refl 50)

theorem rowPercent_lb (T p : Nat) : 20 ≤ rowPercent T p :=
  le_min (Nat.le_add_right 20 _) (by omega)

theorem rowPercent_ub (T p : Nat) : rowPercent T p ≤ 50 :=
  min_le_right _ _

/-- The row-loop progress values are emitted in nondecreasing order and lie
in `[20, 50]`; every value is at least the percentage of the next row to be
processed. -/
theorem processRows_events (hm : List (Option String)) (T : Nat) :
    ∀ (ls : List String) (st : RowState),
      (processRows hm T ls st).2.Chain' (· ≤ ·) ∧
      ∀ x ∈ (processRows hm T ls st).2,
        rowPercent T (st.validRows + 1) ≤ x ∧ 20 ≤ x ∧ x ≤ 50 := by
  intro ls
  induction ls with
  | nil => intro st; simp [processRows]
  | cons line rest ih =>
      intro st
      rw [processRows]
      by_cases hb : isBlankLine line
      · rw [if_pos hb]
        exact ih st
      · rw [if_neg hb]
        cases hn : normalizeRow hm (splitCommaTrim line) with
        | none =>
            dsimp only
            exact ih _
        | some r =>
            dsimp only
            by_cases hev : ((st.validRows + 1) % max 1 (T / 20) == 0 ||
                st.validRows + 1 == T) = true
            · rw [if_pos hev]
              obtain ⟨ihc, ihb⟩ := ih ⟨st.loans ++ [r], st.invalidRows,
                st.validRows + 1⟩
              constructor
              · rw [List.singleton_append, List.chain'_cons']
                refine ⟨?_, ihc⟩
                intro b hbm
                have hb2 := ihb b (List.mem_of_mem_head? hbm)
                exact le_trans (rowPercent_mono T (Nat.le_succ _)) hb2.1
              · intro x hx
                rw [List.singleton_append, List.mem_cons] at hx
                rcases hx with rfl | hx2
                · exact ⟨le_refl _, rowPercent_lb T _, rowPercent_ub T _⟩
                · have hb2 := ihb x hx2
                  exact ⟨le_trans (rowPercent_mono T (Nat.le_succ _)) hb2.1,
                    hb2.2.1, hb2.2.2⟩
            · rw [if_neg hev]
              obtain ⟨ihc, ihb⟩ := ih ⟨st.loans ++ [r], st.invalidRows,
                st.validRows + 1⟩
              rw [List.nil_append]
              refine ⟨ihc, ?_⟩
              intro x hx
              have hb2 := ihb x hx
              exact ⟨le_trans (rowPercent_mono T (Nat.le_succ _)) hb2.1,
                hb2.2.1, hb2.2.2⟩

theorem rowPhase_fst (hm : List (Option String)) (T : Nat)
    (ls : List String) :
    (rowPhase hm T ls).1 = 10 :: 20 :: (processRows hm T ls {}).2 := by
  simp only [rowPhase]
  split_ifs <;> rfl

/-- The progress component of `parseCSVText` is either the bare `[10]` of an
early fatal error or the full `10, 20, row-loop` sequence. -/
theorem parseCSVText_fst_cases (t : String) :
    (parseCSVText t).1 = [10] ∨
    ∃ hm T ls, (parseCSVText t).1 = 10 :: 20 :: (processRows hm T ls ({} : RowState)).2 := by
  simp only [parseCSVText]
  split_ifs
  · exact Or.inl rfl
  · exact Or.inl rfl
  · exact Or.inl rfl
  · exact Or.inr ⟨_, _, _, by dsimp only; rw [rowPhase_fst]⟩
  · exact Or.inr ⟨_, _, _, by dsimp only; rw [rowPhase_fst]⟩

/-- The parse-phase progress values are nondecreasing and lie in
`[10, 50]`. -/
theorem parseCSVText_events (t : String) :
    (parseCSVText t).1.Chain' (· ≤ ·) ∧
    ∀ x ∈ (parseCSVText t).1, 10 ≤ x ∧ x ≤ 50 := by
  rcases parseCSVText_fst_cases t with h | ⟨hm, T, ls, h⟩ <;> rw [h]
  · exact ⟨by simp, by simp⟩
  · obtain ⟨hc, hb⟩ := processRows_events hm T ls {}
    constructor
    · rw [List.chain'_cons', List.chain'_cons']
      refine ⟨fun b hbm => by simp at hbm; omega, ?_, hc⟩
      intro b hbm
      have := (hb b (List.mem_of_mem_head? hbm)).2.1
      omega
    · intro x hx
      rcases List.mem_cons.mp hx with rfl | hx2
      · omega
      · rcases List.mem_cons.mp hx2 with rfl | hx3
        · omega
        · have := hb x hx3
          omega

theorem div30_le (pc total : Nat) (h : pc ≤ total) : pc * 30 / total ≤ 30 := by
  rcases Nat.eq_zero_or_pos total with h0 | hpos
  · subst h0
    simp
  · calc pc * 30 / total ≤ total * 30 / total :=
          Nat.div_le_div_right (Nat.mul_le_mul_right 30 h)
      _ = 30 := by rw [Nat.mul_comm]; exact Nat.mul_div_cancel 30 hpos

/-- The batch-loop progress values are nondecreasing and lie in
`[60, 90]` (given the remaining batches fit in the total). -/
theorem runBatches_percents (err : List DbLoan → Option String) (total : Nat) :
    ∀ (bs : List (List DbLoan)) (pc : Nat),
      pc + (bs.map List.length).sum ≤ total →
      (runBatches err total pc bs).2.2.Chain' (· ≤ ·) ∧
      ∀ x ∈ (runBatches err total pc bs).2.2,
        60 + pc * 30 / total ≤ x ∧ x ≤ 90 := by
  intro bs
  induction bs with
  | nil => intro pc _; simp [runBatches]
  | cons b rest ih =>
      intro pc hsum
      rw [runBatches]
      cases herr : err b with
      | some e => simp
      | none =>
          dsimp only
          rw [List.map_cons, List.sum_cons] at hsum
          obtain ⟨ihc, ihb⟩ := ih (pc + b.length) (by omega)
          constructor
          · rw [List.chain'_cons']
            refine ⟨?_, ihc⟩
            intro x hxm
            exact (ihb x (List.mem_of_mem_head? hxm)).1
          · intro x hx
            rcases List.mem_cons.mp hx with rfl | hx2
            · refine ⟨Nat.add_le_add_left (Nat.div_le_div_right
                (Nat.mul_le_mul_right 30 (Nat.le_add_right pc b.length))) 60, ?_⟩
              have := div30_le (pc + b.length) total (by omega)
              omega
            · have hb2 := ihb x hx2
              exact ⟨le_trans (Nat.add_le_add_left (Nat.div_le_div_right
                (Nat.mul_le_mul_right 30 (Nat.le_add_right pc b.length))) 60)
                hb2.1, hb2.2⟩

theorem chain'_le_append {l1 l2 : List Nat}
    (h1 : l1.Chain' (· ≤ ·)) (h2 : l2.Chain' (· ≤ ·))
    (hb : ∀ x ∈ l1, ∀ y ∈ l2, x ≤ y) : (l1 ++ l2).Chain' (· ≤ ·) := by
  rw [List.chain'_append]
  exact ⟨h1, h2, fun x hx y hy =>
    hb x (List.mem_of_mem_getLast? hx) y (List.mem_of_mem_head? hy)⟩

/-- With a backend that never fails, the batch loop reports no error. -/
theorem runBatches_noErr (total : Nat) :
    ∀ (bs : List (List DbLoan)) (pc : Nat),
      (runBatches (fun _ => none) total pc bs).2.1 = none := by
  intro bs
  induction bs with
  | nil => intro pc; rfl
  | cons b rest ih =>
      intro pc
      rw [runBatches]
      exact ih _

/-- The sum of the chunk lengths is the original length. -/
theorem chunk100_length_sum (l : List DbLoan) :
    ((chunk100 l).map List.length).sum = l.length := by
  calc ((chunk100 l).map List.length).sum = (chunk100 l).join.length := by
        rw [List.length_join]
    _ = l.length := by rw [chunk100_join]

/-- C8: During one ingestion call the percentages passed to the progress
callback are monotonically nondecreasing, all lie in `[0, 100]` (they are
naturals, so only the upper bound needs stating), and a fully successful
run's final reported value is `100`. -/
theorem ingest_progress_monotone :
    ∀ (t : String) (fOk : Bool) (err : List DbLoan → Option String)
      (fid : String),
      (ingestPercents t fOk err fid).Chain' (· ≤ ·) ∧
      (∀ p ∈ ingestPercents t fOk err fid, p ≤ 100) ∧
      (∀ st : RowState, (parseCSVText t).2.2 = .ok st → fOk = true →
        (storeLoansInDatabase err fid st.loans).2.1 = none →
        (ingestPercents t fOk err fid).getLast? = some 100) := by
  intro t fOk err fid
  obtain ⟨hpc, hpb⟩ := parseCSVText_events t
  simp only [ingestPercents]
  cases hres : (parseCSVText t).2.2 with
  | error e =>
      dsimp only
      refine ⟨?_, ?_, ?_⟩
      · rw [List.chain'_cons']
        exact ⟨fun b hbm => by
          have := (hpb b (List.mem_of_mem_head? hbm)).1
          omega, hpc⟩
      · intro p hp
        rcases List.mem_cons.mp hp with rfl | hp2
        · omega
        · have := (hpb p hp2).2
          omega
      · intro st hst
        exact absurd hst (by simp)
  | ok st =>
      dsimp only
      have hsum : 0 + ((chunk100 (st.loans.map (toDbLoan fid))).map
          List.length).sum ≤ (st.loans.map (toDbLoan fid)).length := by
        rw [chunk100_length_sum]
        omega
      obtain ⟨hbc, hbb⟩ := runBatches_percents err
        (st.loans.map (toDbLoan fid)).length
        (chunk100 (st.loans.map (toDbLoan fid))) 0 hsum
      have hstore : (storeLoansInDatabase err fid st.loans).2.2 =
          (runBatches err (st.loans.map (toDbLoan fid)).length 0
            (chunk100 (st.loans.map (toDbLoan fid)))).2.2 := rfl
      have hsb : ∀ x ∈ (storeLoansInDatabase err fid st.loans).2.2,
          60 ≤ x ∧ x ≤ 90 := by
        intro x hx
        rw [hstore] at hx
        have h2 := hbb x hx
        exact ⟨le_trans (by simp) h2.1, h2.2⟩
      have hsc : (storeLoansInDatabase err fid st.loans).2.2.Chain' (· ≤ ·) := by
        rw [hstore]
        exact hbc
      have htail : ∀ tail : List Nat, tail.Chain' (· ≤ ·) →
          (∀ y ∈ tail, 95 ≤ y ∧ y ≤ 100) →
          ((parseCSVText t).1 ++ [50] ++
            ([60] ++ (storeLoansInDatabase err fid st.loans).2.2 ++
              tail)).Chain' (· ≤ ·) ∧
          ∀ p ∈ (parseCSVText t).1 ++ [50] ++
            ([60] ++ (storeLoansInDatabase err fid st.loans).2.2 ++ tail),
            p ≤ 100 := by
        intro tail htc htb
        constructor
        · refine chain'_le_append (chain'_le_append hpc (by simp) ?_)
            (chain'_le_append (chain'_le_append (by simp) hsc ?_) htc ?_) ?_
          · intro x hx y hy
            rcases List.mem_singleton.mp hy with rfl
            exact (hpb x hx).2
          · intro x hx y hy
            rcases List.mem_singleton.mp hx with rfl
            exact (hsb y hy).1
          · intro x hx y hy
            have h95 := (htb y hy).1
            rcases List.mem_append.mp hx with hx2 | hx3
            · rcases List.mem_singleton.mp hx2 with rfl
              omega
            · have := (hsb x hx3).2
              omega
          · intro x hx y hy
            have hx50 : x ≤ 50 := by
              rcases List.mem_append.mp hx with hx2 | hx3
              · exact (hpb x hx2).2
              · rcases List.mem_singleton.mp hx3 with rfl
                omega
            have hy60 : 60 ≤ y ∨ 95 ≤ y := by
              rcases List.mem_append.mp hy with hy2 | hy3
              · rcases List.mem_append.mp hy2 with hy4 | hy5
                · rcases List.mem_singleton.mp hy4 with rfl
                  omega
                · exact Or.inl (hsb y hy5).1
              · exact Or.inr (htb y hy3).1
            omega
        · intro p hp
          rcases List.mem_append.mp hp with hp1 | hp2
          · rcases List.mem_append.mp hp1 with hp3 | hp4
            · have := (hpb p hp3).2
              omega
            · rcases List.mem_singleton.mp hp4 with rfl
              omega
          · rcases List.mem_append.mp hp2 with hp3 | hp4
            · rcases List.mem_append.mp hp3 with hp5 | hp6
              · rcases List.mem_singleton.mp hp5 with rfl
                omega
              · have := (hsb p hp6).2
                omega
            · exact (htb p hp4).2
      have h95100 : ∀ y ∈ ([95, 100] : List Nat), 95 ≤ y ∧ y ≤ 100 := by
        intro y hy
        rcases List.mem_cons.mp hy with rfl | hy2
        · omega
        · rcases List.mem_cons.mp hy2 with rfl | hy3
          · omega
          · simp at hy3
      refine ⟨?_, ?_, ?_⟩
      · by_cases hOk : fOk = true
        · rw [if_pos hOk]
          cases hse : (storeLoansInDatabase err fid st.loans).2.1 with
          | none =>
              have h95 := htail [95, 100] (by simp) h95100
              rw [List.chain'_cons']
              refine ⟨?_, h95.1⟩
              intro b hbm
              have hme := List.mem_of_mem_head? hbm
              rcases List.mem_append.mp hme with hm1 | hm2
              · rcases List.mem_append.mp hm1 with hm3 | hm4
                · have := (hpb b hm3).1
                  omega
                · rcases List.mem_singleton.mp hm4 with rfl
                  omega
              · rcases List.mem_append.mp hm2 with hm3 | hm4
                · rcases List.mem_append.mp hm3 with hm5 | hm6
                  · rcases List.mem_singleton.mp hm5 with rfl
                    omega
                  · have := (hsb b hm6).1
                    omega
                · have := (h95100 b hm4).1
                  omega
          | some e =>
              have h0 := htail [] (by simp) (by simp)
              rw [List.chain'_cons']
              refine ⟨?_, by simpa using h0.1⟩
              intro b hbm
              have hme := List.mem_of_mem_head? hbm
              simp only [List.append_nil] at hme
              rcases List.mem_append.mp hme with hm1 | hm2
              · rcases List.mem_append.mp hm1 with hm3 | hm4
                · have := (hpb b hm3).1
                  omega
                · rcases List.mem_singleton.mp hm4 with rfl
                  omega
              · rcases List.mem_append.mp hm2 with hm3 | hm4
                · rcases List.mem_singleton.mp hm3 with rfl
                  omega
                · have := (hsb b hm4).1
                  omega
        · rw [if_neg hOk]
          rw [List.chain'_cons']
          constructor
          · intro b hbm
            have hme := List.mem_of_mem_head? hbm
            simp only [List.append_nil] at hme
            rcases List.mem_append.mp hme with hm1 | hm2
            · have := (hpb b hm1).1
              omega
            · rcases List.mem_singleton.mp hm2 with rfl
              omega
          · rw [List.append_nil]
            refine chain'_le_append hpc (by simp) ?_
            intro x hx y hy
            rcases List.mem_singleton.mp hy with rfl
            exact (hpb x hx).2
      · intro p hp
        rcases List.mem_cons.mp hp with rfl | hp2
        · omega
        · by_cases hOk : fOk = true
          · rw [if_pos hOk] at hp2
            cases hse : (storeLoansInDatabase err fid st.loans).2.1 with
            | none =>
                rw [hse] at hp2
                exact (htail [95, 100] (by simp) h95100).2 p hp2
            | some e =>
                rw [hse] at hp2
                exact (htail [] (by simp) (by simp)).2 p (by simpa using hp2)
          · rw [if_neg hOk] at hp2
            simp only [List.append_nil] at hp2
            rcases List.mem_append.mp hp2 with hm1 | hm2
            · have := (hpb p hm1).2
              omega
            · rcases List.mem_singleton.mp hm2 with rfl
              omega
      · intro st2 hst2 hOk hse
        have hst3 : st = st2 := by
          injection hst2
        subst hst3
        rw [if_pos hOk, hse]
        dsimp only
        have hassoc : (5 : Nat) :: ((parseCSVText t).1 ++ [50] ++
            ([60] ++ (storeLoansInDatabase err fid st.loans).2.2 ++ [95, 100])) =
            ((5 : Nat) :: ((parseCSVText t).1 ++ [50] ++
              ([60] ++ (storeLoansInDatabase err fid st.loans).2.2 ++ [95]))) ++
              [100] := by
          simp
        rw [hassoc, List.getLast?_concat]

/-- Witness for C8: the three-row CSV from the C3 scenario with a successful
backend: the reported sequence ends at `100`. -/
theorem ingest_progress_monotone_witness :
    (ingestPercents
        "user_wallet,loan_amount,loan_term,loan_due_date\x0A0xA,x,x,d\x0A,x,x,d\x0A0xB,x,x,d"
        true (fun _ => none) "f").getLast? = some 100 :=
  (ingest_progress_monotone
      "user_wallet,loan_amount,loan_term,loan_due_date\x0A0xA,x,x,d\x0A,x,x,d\x0A0xB,x,x,d"
      true (fun _ => none) "f").2.2
    ⟨validRecords
        (headerMapOf ((splitLines
          "user_wallet,loan_amount,loan_term,loan_due_date\x0A0xA,x,x,d\x0A,x,x,d\x0A0xB,x,x,d").headD ""))
        ((splitLines
          "user_wallet,loan_amount,loan_term,loan_due_date\x0A0xA,x,x,d\x0A,x,x,d\x0A0xB,x,x,d").drop 1),
     1, 2⟩
    rfl rfl (runBatches_noErr _ _ 0)

/-- Witness for C4: `today = 0`, a loan due yesterday (day `-1`) is in the
expired view and not in the 30-day bucket. -/
theorem getExpiredLoans_disjoint_from_buckets_witness :
    (⟨"0xB", 10, some 5, 30, some (-1), none, false, ""⟩ : LoanData) ∈
      getExpiredLoans 0 [⟨"0xB", 10, some 5, 30, some (-1), none, false, ""⟩] ∧
    ∀ g ∈ groupLoansByDueDate 0
        [⟨"0xB", 10, some 5, 30, some (-1), none, false, ""⟩],
      (⟨"0xB", 10, some 5, 30, some (-1), none, false, ""⟩ : LoanData) ∉ g.loans :=
  getExpiredLoans_disjoint_from_buckets 0
    [⟨"0xB", 10, some 5, 30, some (-1), none, false, ""⟩]
    ⟨"0xB", 10, some 5, 30, some (-1), none, false, ""⟩ (-1)
    (List.mem_singleton.mpr rfl) rfl rfl rfl (by decide)
    (by simp [isMissingRepaidAmount, repaidLt]; norm_num)

end LoanDashboard
